import Mathlib

/-
Shallow embedding of the single-instrument limit order book implemented in
src/Orderbook/orderbook.cpp, together with proofs about its operations.

Modelling conventions:
- Prices (C++ `double`) are modelled as rationals: the program performs no
  arithmetic on prices, only comparison and map-keying, and every comparison
  of distinct decimal literals behaves identically over the rationals.
- `uint64_t` quantities are modelled as `Nat`; all subtractions performed by
  the code act on quantities bounded by the value they are subtracted from in
  every state reachable through the public interface (proved below), so no
  wrap-around is observable.
- `std::map<double, ...>` sides are modelled as lists of levels with pairwise
  distinct prices (an invariant of the map, proved preserved below); the
  map's `rbegin()` / `begin()` best-level lookups become `argmax` / `argmin`
  over the price field.
- `std::deque<uint64_t>` is a `List` with `push_back` at the tail and `front`
  at the head; `std::unordered_map` is a list of entries with distinct keys.
- The `while` loop of `execute_matching` is run on fuel; the number of
  active orders is proved to bound its iteration count.
- The `cout` statement of `process_match` is the trade notification; the
  values it streams are collected in an output log carried by the book.
-/

namespace OrderBookSpec

abbrev Price := ℚ
abbrev OrderId := Nat

/-- The C++ `Order` struct: identifier, side, price, remaining quantity,
timestamp (recorded but never compared). -/
structure Order where
  order_id : OrderId
  is_buy : Bool
  price : Price
  quantity : Nat
  timestamp_ns : Nat
deriving DecidableEq

/-- The C++ `LevelManager`: one price level holding a FIFO queue of order
identifiers and the aggregate remaining volume at that price. -/
structure LevelManager where
  price_point : Price
  order_queue : List OrderId
  aggregate_volume : Nat
deriving DecidableEq

/-- `LevelManager::push_order`: append the id at the tail, add qty to the
aggregate. -/
def LevelManager.push_order (l : LevelManager) (id : OrderId) (qty : Nat) :
    LevelManager :=
  { l with order_queue := l.order_queue ++ [id],
           aggregate_volume := l.aggregate_volume + qty }

/-- `LevelManager::remove_order`: erase the first occurrence of the id (if
present) and subtract qty from the aggregate; the Bool reports whether the id
was found. -/
def LevelManager.remove_order (l : LevelManager) (id : OrderId) (qty : Nat) :
    LevelManager × Bool :=
  if id ∈ l.order_queue then
    ({ l with order_queue := l.order_queue.erase id,
              aggregate_volume := l.aggregate_volume - qty }, true)
  else (l, false)

/-- `LevelManager::update_volume`: rebase the aggregate by the delta. -/
def LevelManager.update_volume (l : LevelManager) (old_qty new_qty : Nat) :
    LevelManager :=
  { l with aggregate_volume := l.aggregate_volume - old_qty + new_qty }

/-- `LevelManager::is_empty`. -/
def LevelManager.is_empty (l : LevelManager) : Bool := l.order_queue.isEmpty

/-- One side of the book: the contents of a `std::map<double, LevelManager>`.
Key uniqueness is an invariant, established below. -/
abbrev Side := List LevelManager

/-- `side.find(price)`: the level stored at the given price, if any. -/
def side_find (s : Side) (p : Price) : Option LevelManager :=
  s.find? (fun l => decide (l.price_point = p))

/-- Apply an update to the level stored at the given price (the functional
rendering of mutating through the iterator returned by `find`). -/
def side_update (s : Side) (p : Price) (f : LevelManager → LevelManager) :
    Side :=
  s.map (fun l => if l.price_point = p then f l else l)

/-- `side.erase(iter)` for the iterator found at the given price. -/
def side_erase (s : Side) (p : Price) : Side :=
  s.eraseP (fun l => decide (l.price_point = p))

/-- `OrderBook::cleanup_level`: drop the level at the given price if it is
present and its queue is empty. -/
def cleanup_level (s : Side) (p : Price) : Side :=
  match side_find s p with
  | some l => if l.is_empty then side_erase s p else s
  | none => s

/-- The tuple of values streamed by the `cout` statement of
`OrderBook::process_match`, in the order they are emitted: bid id, bid
price, ask id, ask price. -/
structure Trade where
  bid_id : OrderId
  bid_price : Price
  ask_id : OrderId
  ask_price : Price
deriving DecidableEq

/-- The `OrderBook` state: both sides, the registry of active orders
(`active_orders`), and the log of emitted trade notifications. -/
structure OrderBook where
  bid_levels : Side
  ask_levels : Side
  active_orders : List Order
  trades : List Trade
deriving DecidableEq

/-- The freshly constructed book. -/
def OrderBook.empty : OrderBook := ⟨[], [], [], []⟩

/-- Registry lookup on the underlying entry list. -/
def lookupOrder (orders : List Order) (id : OrderId) : Option Order :=
  orders.find? (fun o => decide (o.order_id = id))

/-- `active_orders.find(id)`. -/
def findOrder (st : OrderBook) (id : OrderId) : Option Order :=
  lookupOrder st.active_orders id

/-- Write a new remaining quantity into the registry entry of the given id
(the functional rendering of mutating through a reference into the map). -/
def setOrderQty (orders : List Order) (id : OrderId) (q : Nat) : List Order :=
  orders.map (fun o => if o.order_id = id then { o with quantity := q } else o)

/-- `OrderBook::fetch_side`. -/
def fetch_side (st : OrderBook) (buy_side : Bool) : Side :=
  if buy_side then st.bid_levels else st.ask_levels

/-- Store back a modified side. -/
def set_side (st : OrderBook) (buy_side : Bool) (s : Side) : OrderBook :=
  if buy_side then { st with bid_levels := s } else { st with ask_levels := s }

/-- `OrderBook::cancel_order`: unknown id returns false; otherwise the id is
removed from its level's queue (subtracting its remaining quantity from the
aggregate), the level is evicted if now empty, and the registry entry is
erased. -/
def cancel_order (order_id : OrderId) (st : OrderBook) : Bool × OrderBook :=
  match findOrder st order_id with
  | none => (false, st)
  | some ord =>
    let side := fetch_side st ord.is_buy
    let side' :=
      match side_find side ord.price with
      | some _ =>
          cleanup_level
            (side_update side ord.price
              (fun l => (l.remove_order order_id ord.quantity).1))
            ord.price
      | none => side
    let st' := set_side st ord.is_buy side'
    (true, { st' with
      active_orders :=
        st'.active_orders.eraseP (fun o => decide (o.order_id = order_id)) })

/-- `OrderBook::process_match`: if either id is missing from the registry do
nothing; otherwise emit the trade notification, decrement both remaining
quantities by the matched quantity, rebase both levels' aggregates, and
cancel whichever orders reached zero. -/
def process_match (bid_id ask_id : OrderId) (st : OrderBook) : OrderBook :=
  match findOrder st bid_id, findOrder st ask_id with
  | some bid_order, some ask_order =>
    let match_qty := min bid_order.quantity ask_order.quantity
    let st1 := { st with
      trades := st.trades ++
        [Trade.mk bid_id bid_order.price ask_id ask_order.price],
      active_orders :=
        setOrderQty (setOrderQty st.active_orders bid_id
            (bid_order.quantity - match_qty))
          ask_id (ask_order.quantity - match_qty) }
    let st2 := { st1 with
      bid_levels := side_update st1.bid_levels bid_order.price
        (fun l => l.update_volume match_qty 0),
      ask_levels := side_update st1.ask_levels ask_order.price
        (fun l => l.update_volume match_qty 0) }
    let st3 := if bid_order.quantity - match_qty = 0
      then (cancel_order bid_id st2).2 else st2
    if ask_order.quantity - match_qty = 0
      then (cancel_order ask_id st3).2 else st3
  | _, _ => st

/-- The head pair examined by one iteration of `OrderBook::execute_matching`:
none exactly when the loop would stop (a side empty, the book uncrossed, or
the defensive empty-queue guard firing). -/
def next_match? (st : OrderBook) : Option (OrderId × OrderId) :=
  match st.bid_levels.argmax LevelManager.price_point,
        st.ask_levels.argmin LevelManager.price_point with
  | some best_bid, some best_ask =>
    if best_bid.price_point < best_ask.price_point then none
    else
      match best_bid.order_queue, best_ask.order_queue with
      | bid_id :: _, ask_id :: _ => some (bid_id, ask_id)
      | _, _ => none
  | _, _ => none

/-- One iteration of the matching loop, when it runs. -/
def match_step? (st : OrderBook) : Option OrderBook :=
  (next_match? st).map (fun p => process_match p.1 p.2 st)

/-- The `while` loop of `OrderBook::execute_matching`, on fuel. -/
def execute_matching : Nat → OrderBook → OrderBook
  | 0, st => st
  | fuel + 1, st =>
    match match_step? st with
    | some st' => execute_matching fuel st'
    | none => st

/-- The matching loop run with fuel equal to the number of active orders,
which bounds the iteration count (proved below: every iteration removes at
least one registry entry). -/
def run_matching (st : OrderBook) : OrderBook :=
  execute_matching st.active_orders.length st

/-- The registration and enqueueing phase of `OrderBook::add_order`
(everything before `execute_matching`): create the level if needed
(`get_or_create_level`), push the id at its tail, and record the order. -/
def enqueue_order (o : Order) (st : OrderBook) : OrderBook :=
  let side := fetch_side st o.is_buy
  let side' :=
    match side_find side o.price with
    | some _ => side_update side o.price
        (fun l => l.push_order o.order_id o.quantity)
    | none => side ++ [(LevelManager.mk o.price [] 0).push_order
        o.order_id o.quantity]
  let st' := set_side st o.is_buy side'
  { st' with active_orders := st'.active_orders ++ [o] }

/-- `OrderBook::add_order`: a duplicate identifier returns immediately;
otherwise enqueue and run the matching loop. -/
def add_order (o : Order) (st : OrderBook) : OrderBook :=
  if (findOrder st o.order_id).isSome then st
  else run_matching (enqueue_order o st)

/-- `OrderBook::amend_order`: unknown id returns false; a price change copies
the order with the new price and quantity, cancels, and re-adds it; a
same-price amendment rebases the level aggregate and rewrites the registry
quantity in place (only when the level is found, as in the source). -/
def amend_order (order_id : OrderId) (new_price : Price) (new_quantity : Nat)
    (st : OrderBook) : Bool × OrderBook :=
  match findOrder st order_id with
  | none => (false, st)
  | some ord =>
    if ord.price ≠ new_price then
      let modified := { ord with price := new_price, quantity := new_quantity }
      (true, add_order modified (cancel_order order_id st).2)
    else
      match side_find (fetch_side st ord.is_buy) ord.price with
      | some _ =>
        let side' := side_update (fetch_side st ord.is_buy) ord.price
          (fun l => l.update_volume ord.quantity new_quantity)
        let st' := set_side st ord.is_buy side'
        (true, { st' with
          active_orders := setOrderQty st'.active_orders order_id new_quantity })
      | none => (true, st)

/-- The queue of the level indexed at a price on a side ([] if absent). -/
def queueAt (st : OrderBook) (buy_side : Bool) (p : Price) : List OrderId :=
  match side_find (fetch_side st buy_side) p with
  | some l => l.order_queue
  | none => []

/-- The aggregate volume of the level indexed at a price (0 if absent). -/
def volumeAt (st : OrderBook) (buy_side : Bool) (p : Price) : Nat :=
  match side_find (fetch_side st buy_side) p with
  | some l => l.aggregate_volume
  | none => 0

/-- The remaining quantity recorded in the registry for an id (0 if absent). -/
def qtyOf (st : OrderBook) (id : OrderId) : Nat :=
  match findOrder st id with
  | some o => o.quantity
  | none => 0

/-- The sum of the remaining quantities of the orders referenced by a level's
queue. -/
def levelSum (st : OrderBook) (l : LevelManager) : Nat :=
  (l.order_queue.map (qtyOf st)).sum

/-- The intermediate state reached by `process_match` after the trade
emission, the two registry quantity decrements and the two aggregate
rebasings, just before the zero-quantity cancellations: a proof-local name
for the state of the source between the `update_volume` calls and the
`cancel_order` calls. -/
def match_mid (bid_id ask_id : OrderId) (bid_order ask_order : Order)
    (st : OrderBook) : OrderBook :=
  let match_qty := min bid_order.quantity ask_order.quantity
  { bid_levels := side_update st.bid_levels bid_order.price
      (fun l => l.update_volume match_qty 0),
    ask_levels := side_update st.ask_levels ask_order.price
      (fun l => l.update_volume match_qty 0),
    active_orders := setOrderQty (setOrderQty st.active_orders bid_id
        (bid_order.quantity - match_qty)) ask_id
        (ask_order.quantity - match_qty),
    trades := st.trades
      ++ [Trade.mk bid_id bid_order.price ask_id ask_order.price] }

/-- The book state the specification prescribes for a price-changing
amendment: cancelOrder followed by addOrder of an order carrying the same
identifier with the new price and quantity. This definition follows the
specification text and is compared with `amend_order` in the refinement
theorem below. -/
def amend_spec (ord : Order) (new_price : Price) (new_quantity : Nat)
    (st : OrderBook) : OrderBook :=
  add_order { ord with price := new_price, quantity := new_quantity }
    (cancel_order ord.order_id st).2

/-- The demo price 50.25 = 201/4, as an explicitly reduced rational. -/
def p5025 : Price := Rat.mk' 201 4 (by decide) (by decide)

/-- The demo price 50.50 = 101/2, as an explicitly reduced rational. -/
def p5050 : Price := Rat.mk' 101 2 (by decide) (by decide)

/-- The demo price 49.75 = 199/4, as an explicitly reduced rational. -/
def p4975 : Price := Rat.mk' 199 4 (by decide) (by decide)

/-- A small book built through the public interface: bid 100@50.25 (id 1),
then bid 200@50.50 (id 2) — the resting side of the specification's
scenario B. -/
def demo_book : OrderBook :=
  add_order (Order.mk 2 true p5050 200 11)
    (add_order (Order.mk 1 true p5025 100 10) OrderBook.empty)

/-- Scenario B of the demo: the incoming sell 50@50.25 (id 3) applied to the
demo book. -/
def scenario_b_book : OrderBook :=
  add_order (Order.mk 3 false p5025 50 12) demo_book

end OrderBookSpec

namespace OrderBookSpec

/-- Price-key uniqueness of one side: the `std::map` key invariant. -/
def KeysOk (s : Side) : Prop := (s.map LevelManager.price_point).Nodup

/-- Well-formedness of one indexed level: nonempty duplicate-free queue, every
referenced id registered on this side at this price, and the aggregate equal
to the sum of the referenced remaining quantities. -/
def LevelOk (st : OrderBook) (buy_side : Bool) (l : LevelManager) : Prop :=
  l.order_queue ≠ [] ∧ l.order_queue.Nodup ∧
  (∀ id ∈ l.order_queue, ∃ o ∈ st.active_orders,
      o.order_id = id ∧ o.is_buy = buy_side ∧ o.price = l.price_point) ∧
  l.aggregate_volume = levelSum st l

/-- The structural invariant of the book (everything except uncrossedness):
unique registry keys, unique price keys per side, well-formed levels, and
every active order enqueued at its own (side, price) level. -/
def Inv (st : OrderBook) : Prop :=
  (st.active_orders.map Order.order_id).Nodup ∧
  (∀ b : Bool, KeysOk (fetch_side st b)) ∧
  (∀ b : Bool, ∀ l ∈ fetch_side st b, LevelOk st b l) ∧
  (∀ o ∈ st.active_orders, o.order_id ∈ queueAt st o.is_buy o.price)

/-- The book is not crossed: every bid price is strictly below every ask
price (for nonempty sides, equivalently max bid < min ask). -/
def NoCross (st : OrderBook) : Prop :=
  ∀ bl ∈ st.bid_levels, ∀ al ∈ st.ask_levels, bl.price_point < al.price_point

/-- Full well-formedness. -/
def WF (st : OrderBook) : Prop := Inv st ∧ NoCross st

/-- Book states reachable from a fresh book through the public interface. -/
inductive Reachable : OrderBook → Prop
  | empty : Reachable OrderBook.empty
  | add (o : Order) {st : OrderBook} :
      Reachable st → Reachable (add_order o st)
  | cancel (id : OrderId) {st : OrderBook} :
      Reachable st → Reachable (cancel_order id st).2
  | amend (id : OrderId) (p : Price) (q : Nat) {st : OrderBook} :
      Reachable st → Reachable (amend_order id p q st).2

theorem lookupOrder_eq_some {orders : List Order} {id : OrderId} {o : Order}
    (h : lookupOrder orders id = some o) : o ∈ orders ∧ o.order_id = id := by
  refine ⟨List.mem_of_find?_eq_some h, ?_⟩
  have := List.find?_some h
  simpa using this

theorem lookupOrder_of_mem {orders : List Order}
    (hnd : (orders.map Order.order_id).Nodup) {o : Order} (ho : o ∈ orders) :
    lookupOrder orders o.order_id = some o := by
  induction orders with
  | nil => cases ho
  | cons a l ih =>
    rw [lookupOrder, List.find?_cons]
    by_cases ha : a.order_id = o.order_id
    · have : a = o := List.inj_on_of_nodup_map hnd (List.mem_cons_self a l) ho ha
      simp [ha, this]
    · have ho' : o ∈ l := by
        rcases List.mem_cons.1 ho with h | h
        · exact absurd (h ▸ rfl) ha
        · exact h
      simp only [List.map_cons, List.nodup_cons] at hnd
      simpa [ha] using ih hnd.2 ho'

theorem lookupOrder_append (l₁ l₂ : List Order) (id : OrderId) :
    lookupOrder (l₁ ++ l₂) id = (lookupOrder l₁ id).or (lookupOrder l₂ id) :=
  List.find?_append

theorem lookupOrder_setOrderQty_self (orders : List Order) (id : OrderId)
    (q : Nat) :
    lookupOrder (setOrderQty orders id q) id
      = (lookupOrder orders id).map (fun o => { o with quantity := q }) := by
  induction orders with
  | nil => rfl
  | cons a l ih =>
    by_cases ha : a.order_id = id
    · simp [lookupOrder, setOrderQty, List.find?_cons, ha]
    · simpa [lookupOrder, setOrderQty, List.find?_cons, ha] using ih

theorem lookupOrder_setOrderQty_ne (orders : List Order) (id : OrderId)
    (q : Nat) {j : OrderId} (h : j ≠ id) :
    lookupOrder (setOrderQty orders id q) j = lookupOrder orders j := by
  induction orders with
  | nil => rfl
  | cons a l ih =>
    show List.find? _ ((if a.order_id = id then _ else a) :: setOrderQty l id q)
        = List.find? _ (a :: l)
    by_cases ha : a.order_id = id
    · have hj : ¬ a.order_id = j := fun hh => h (hh.symm.trans ha)
      rw [if_pos ha, List.find?_cons_of_neg _ (by simpa using hj),
          List.find?_cons_of_neg l (by simpa using hj)]
      exact ih
    · rw [if_neg ha]
      by_cases hj : a.order_id = j
      · rw [List.find?_cons_of_pos _ (by simpa using hj),
            List.find?_cons_of_pos _ (by simpa using hj)]
      · rw [List.find?_cons_of_neg _ (by simpa using hj),
            List.find?_cons_of_neg _ (by simpa using hj)]
        exact ih

theorem keys_setOrderQty (orders : List Order) (id : OrderId) (q : Nat) :
    (setOrderQty orders id q).map Order.order_id
      = orders.map Order.order_id := by
  unfold setOrderQty
  rw [List.map_map]
  apply List.map_congr_left
  intro o _
  by_cases ha : o.order_id = id <;> simp [ha]

theorem lookupOrder_eraseP_ne (orders : List Order) (id : OrderId)
    {j : OrderId} (h : j ≠ id) :
    lookupOrder (orders.eraseP (fun o => decide (o.order_id = id))) j
      = lookupOrder orders j := by
  induction orders with
  | nil => rfl
  | cons a l ih =>
    rw [List.eraseP_cons]
    by_cases ha : a.order_id = id
    · have hj : ¬ a.order_id = j := fun hh => h (hh.symm.trans ha)
      rw [(by simpa using ha : decide (a.order_id = id) = true), cond_true]
      show lookupOrder l j = lookupOrder (a :: l) j
      simp only [lookupOrder]
      rw [List.find?_cons_of_neg l (by simpa using hj)]
    · rw [(by simpa using ha : decide (a.order_id = id) = false), cond_false]
      by_cases hj : a.order_id = j
      · rw [lookupOrder, lookupOrder,
            List.find?_cons_of_pos _ (by simpa using hj),
            List.find?_cons_of_pos _ (by simpa using hj)]
      · rw [lookupOrder, lookupOrder,
            List.find?_cons_of_neg _ (by simpa using hj),
            List.find?_cons_of_neg _ (by simpa using hj)]
        exact ih

theorem lookupOrder_eraseP_self {orders : List Order}
    (hnd : (orders.map Order.order_id).Nodup) (id : OrderId) :
    lookupOrder (orders.eraseP (fun o => decide (o.order_id = id))) id
      = none := by
  induction orders with
  | nil => rfl
  | cons a l ih =>
    simp only [List.map_cons, List.nodup_cons] at hnd
    rw [List.eraseP_cons]
    by_cases ha : a.order_id = id
    · rw [(by simpa using ha : decide (a.order_id = id) = true), cond_true,
          lookupOrder, List.find?_eq_none]
      intro o ho
      simp only [decide_eq_true_eq]
      intro hoid
      exact hnd.1 (ha ▸ hoid ▸ List.mem_map_of_mem Order.order_id ho)
    · rw [(by simpa using ha : decide (a.order_id = id) = false), cond_false,
          lookupOrder, List.find?_cons_of_neg _ (by simpa using ha)]
      exact ih hnd.2

theorem keys_eraseP_sublist (orders : List Order) (p : Order → Bool) :
    ((orders.eraseP p).map Order.order_id).Sublist
      (orders.map Order.order_id) :=
  (List.eraseP_sublist orders).map Order.order_id

end OrderBookSpec

namespace OrderBookSpec

theorem side_find_eq_some {s : Side} {p : Price} {l : LevelManager}
    (h : side_find s p = some l) : l ∈ s ∧ l.price_point = p := by
  refine ⟨List.mem_of_find?_eq_some h, ?_⟩
  have := List.find?_some h
  simpa using this

theorem side_find_of_mem {s : Side} (hk : KeysOk s) {l : LevelManager}
    (hl : l ∈ s) : side_find s l.price_point = some l := by
  induction s with
  | nil => cases hl
  | cons a t ih =>
    by_cases ha : a.price_point = l.price_point
    · have : a = l :=
        List.inj_on_of_nodup_map hk (List.mem_cons_self a t) hl ha
      rw [side_find, List.find?_cons_of_pos _ (by simpa using ha), this]
    · have hl' : l ∈ t := by
        rcases List.mem_cons.1 hl with h | h
        · exact absurd (h ▸ rfl) ha
        · exact h
      simp only [KeysOk, List.map_cons, List.nodup_cons] at hk
      rw [side_find, List.find?_cons_of_neg _ (by simpa using ha)]
      exact ih hk.2 hl'

theorem side_find_append (s t : Side) (p : Price) :
    side_find (s ++ t) p = (side_find s p).or (side_find t p) :=
  List.find?_append

theorem side_find_update_self (s : Side) (p : Price)
    (f : LevelManager → LevelManager)
    (hf : ∀ l, (f l).price_point = l.price_point) :
    side_find (side_update s p f) p = (side_find s p).map f := by
  induction s with
  | nil => rfl
  | cons a t ih =>
    show List.find? _ ((if a.price_point = p then f a else a) :: side_update t p f)
        = ((a :: t).find? _).map f
    by_cases ha : a.price_point = p
    · rw [if_pos ha, List.find?_cons_of_pos _ (by simp [hf, ha]),
          List.find?_cons_of_pos _ (by simpa using ha)]
      rfl
    · rw [if_neg ha, List.find?_cons_of_neg _ (by simpa using ha),
          List.find?_cons_of_neg _ (by simpa using ha)]
      exact ih

theorem side_find_update_ne (s : Side) (p : Price)
    (f : LevelManager → LevelManager) {q : Price} (h : q ≠ p)
    (hf : ∀ l, (f l).price_point = l.price_point) :
    side_find (side_update s p f) q = side_find s q := by
  induction s with
  | nil => rfl
  | cons a t ih =>
    show List.find? _ ((if a.price_point = p then f a else a) :: side_update t p f)
        = (a :: t).find? _
    by_cases ha : a.price_point = p
    · have hq : ¬ a.price_point = q := fun hh => h (hh.symm.trans ha)
      rw [if_pos ha, List.find?_cons_of_neg _ (by simp [hf, hq]),
          List.find?_cons_of_neg _ (by simpa using hq)]
      exact ih
    · by_cases hq : a.price_point = q
      · rw [if_neg ha, List.find?_cons_of_pos _ (by simpa using hq),
            List.find?_cons_of_pos _ (by simpa using hq)]
      · rw [if_neg ha, List.find?_cons_of_neg _ (by simpa using hq),
            List.find?_cons_of_neg _ (by simpa using hq)]
        exact ih

theorem prices_side_update (s : Side) (p : Price)
    (f : LevelManager → LevelManager)
    (hf : ∀ l, (f l).price_point = l.price_point) :
    (side_update s p f).map LevelManager.price_point
      = s.map LevelManager.price_point := by
  unfold side_update
  rw [List.map_map]
  apply List.map_congr_left
  intro l _
  by_cases ha : l.price_point = p <;> simp [ha, hf]

theorem side_find_erase_ne (s : Side) (p : Price) {q : Price} (h : q ≠ p) :
    side_find (side_erase s p) q = side_find s q := by
  induction s with
  | nil => rfl
  | cons a t ih =>
    rw [side_erase, List.eraseP_cons]
    by_cases ha : a.price_point = p
    · have hq : ¬ a.price_point = q := fun hh => h (hh.symm.trans ha)
      rw [(by simpa using ha : decide (a.price_point = p) = true), cond_true]
      show side_find t q = side_find (a :: t) q
      simp only [side_find]
      rw [List.find?_cons_of_neg t (by simpa using hq)]
    · rw [(by simpa using ha : decide (a.price_point = p) = false), cond_false]
      by_cases hq : a.price_point = q
      · rw [side_find, side_find,
            List.find?_cons_of_pos _ (by simpa using hq),
            List.find?_cons_of_pos _ (by simpa using hq)]
      · rw [side_find, side_find,
            List.find?_cons_of_neg _ (by simpa using hq),
            List.find?_cons_of_neg _ (by simpa using hq)]
        exact ih

theorem side_find_erase_self {s : Side} (hk : KeysOk s) (p : Price) :
    side_find (side_erase s p) p = none := by
  induction s with
  | nil => rfl
  | cons a t ih =>
    simp only [KeysOk, List.map_cons, List.nodup_cons] at hk
    rw [side_erase, List.eraseP_cons]
    by_cases ha : a.price_point = p
    · rw [(by simpa using ha : decide (a.price_point = p) = true), cond_true,
          side_find, List.find?_eq_none]
      intro l hl
      simp only [decide_eq_true_eq]
      intro hlp
      exact hk.1 (ha ▸ hlp ▸ List.mem_map_of_mem LevelManager.price_point hl)
    · rw [(by simpa using ha : decide (a.price_point = p) = false), cond_false,
          side_find, List.find?_cons_of_neg _ (by simpa using ha)]
      exact ih hk.2

theorem mem_side_update {s : Side} {p : Price} {f : LevelManager → LevelManager}
    {l' : LevelManager} (h : l' ∈ side_update s p f) :
    ∃ l ∈ s, l' = if l.price_point = p then f l else l := by
  rcases List.mem_map.1 h with ⟨l, hl, hl'⟩
  exact ⟨l, hl, hl'.symm⟩

theorem mem_side_erase {s : Side} {p : Price} {l' : LevelManager}
    (h : l' ∈ side_erase s p) : l' ∈ s :=
  (List.eraseP_sublist s).subset h

theorem cleanup_sublist (s : Side) (p : Price) :
    (cleanup_level s p).Sublist s := by
  unfold cleanup_level
  cases side_find s p with
  | none => exact List.Sublist.refl s
  | some l =>
    by_cases he : l.is_empty <;> simp only [he, if_pos, if_neg]
    · exact List.eraseP_sublist s
    · simp [he]

theorem mem_cleanup {s : Side} {p : Price} {l' : LevelManager}
    (h : l' ∈ cleanup_level s p) : l' ∈ s :=
  (cleanup_sublist s p).subset h

theorem side_find_cleanup_ne (s : Side) (p : Price) {q : Price} (h : q ≠ p) :
    side_find (cleanup_level s p) q = side_find s q := by
  unfold cleanup_level
  cases side_find s p with
  | none => rfl
  | some l =>
    by_cases he : l.is_empty
    · simp only [he, if_true]
      exact side_find_erase_ne s p h
    · simp [he]

theorem side_find_cleanup_self {s : Side} (hk : KeysOk s) (p : Price) :
    side_find (cleanup_level s p) p
      = match side_find s p with
        | some l => if l.is_empty then none else some l
        | none => none := by
  unfold cleanup_level
  cases hf : side_find s p with
  | none => simp [hf]
  | some l =>
    by_cases he : l.is_empty
    · simp only [he, if_true]
      exact side_find_erase_self hk p
    · simp [he, hf]

theorem keysOk_side_update {s : Side} {p : Price}
    {f : LevelManager → LevelManager}
    (hf : ∀ l, (f l).price_point = l.price_point) (hk : KeysOk s) :
    KeysOk (side_update s p f) := by
  rw [KeysOk, prices_side_update s p f hf]
  exact hk

theorem keysOk_side_erase {s : Side} (hk : KeysOk s) (p : Price) :
    KeysOk (side_erase s p) :=
  ((List.eraseP_sublist s).map LevelManager.price_point).nodup hk

theorem keysOk_cleanup {s : Side} (hk : KeysOk s) (p : Price) :
    KeysOk (cleanup_level s p) :=
  ((cleanup_sublist s p).map LevelManager.price_point).nodup hk

theorem fetch_set_side_same (st : OrderBook) (b : Bool) (s : Side) :
    fetch_side (set_side st b s) b = s := by
  cases b <;> rfl

theorem fetch_set_side_ne (st : OrderBook) {b b' : Bool} (h : b' ≠ b)
    (s : Side) : fetch_side (set_side st b s) b' = fetch_side st b' := by
  cases b <;> cases b' <;> first | rfl | exact absurd rfl h

theorem set_side_active (st : OrderBook) (b : Bool) (s : Side) :
    (set_side st b s).active_orders = st.active_orders := by
  cases b <;> rfl

theorem set_side_trades (st : OrderBook) (b : Bool) (s : Side) :
    (set_side st b s).trades = st.trades := by
  cases b <;> rfl

theorem sum_map_erase (f : OrderId → Nat) {l : List OrderId} {id : OrderId}
    (h : id ∈ l) :
    (l.map f).sum = f id + ((l.erase id).map f).sum := by
  have hperm := List.perm_cons_erase h
  calc (l.map f).sum = ((id :: l.erase id).map f).sum :=
        (hperm.map f).sum_eq
    _ = f id + ((l.erase id).map f).sum := by simp

theorem levelSum_congr {st st' : OrderBook} {l : LevelManager}
    (h : ∀ id ∈ l.order_queue, qtyOf st' id = qtyOf st id) :
    levelSum st' l = levelSum st l := by
  unfold levelSum
  rw [List.map_congr_left h]

end OrderBookSpec

namespace OrderBookSpec

@[simp] theorem price_remove_order (l : LevelManager) (id : OrderId) (q : Nat) :
    ((l.remove_order id q).1).price_point = l.price_point := by
  unfold LevelManager.remove_order
  split <;> rfl

@[simp] theorem queue_remove_order (l : LevelManager) (id : OrderId) (q : Nat) :
    ((l.remove_order id q).1).order_queue = l.order_queue.erase id := by
  unfold LevelManager.remove_order
  split <;> rename_i h
  · rfl
  · exact (List.erase_of_not_mem h).symm

theorem volume_remove_order (l : LevelManager) {id : OrderId} (q : Nat)
    (h : id ∈ l.order_queue) :
    ((l.remove_order id q).1).aggregate_volume = l.aggregate_volume - q := by
  unfold LevelManager.remove_order
  rw [if_pos h]

@[simp] theorem price_update_volume (l : LevelManager) (o n : Nat) :
    (l.update_volume o n).price_point = l.price_point := rfl

@[simp] theorem queue_update_volume (l : LevelManager) (o n : Nat) :
    (l.update_volume o n).order_queue = l.order_queue := rfl

@[simp] theorem price_push_order (l : LevelManager) (id : OrderId) (q : Nat) :
    (l.push_order id q).price_point = l.price_point := rfl

@[simp] theorem queue_push_order (l : LevelManager) (id : OrderId) (q : Nat) :
    (l.push_order id q).order_queue = l.order_queue ++ [id] := rfl

@[simp] theorem fetch_side_orders_update (st : OrderBook) (x : List Order)
    (b : Bool) :
    fetch_side { st with active_orders := x } b = fetch_side st b := by
  cases b <;> rfl

@[simp] theorem fetch_side_trades_update (st : OrderBook) (x : List Trade)
    (b : Bool) :
    fetch_side { st with trades := x } b = fetch_side st b := by
  cases b <;> rfl

theorem inv_lookup_of_mem_queue {st : OrderBook} (hInv : Inv st) {b : Bool}
    {l : LevelManager} {id : OrderId} (hl : l ∈ fetch_side st b)
    (hid : id ∈ l.order_queue) :
    ∃ o, findOrder st id = some o ∧ o ∈ st.active_orders ∧
      o.order_id = id ∧ o.is_buy = b ∧ o.price = l.price_point := by
  obtain ⟨hnd, _, hlev, _⟩ := hInv
  obtain ⟨o, ho, hoid, hob, hop⟩ := (hlev b l hl).2.2.1 id hid
  refine ⟨o, ?_, ho, hoid, hob, hop⟩
  rw [findOrder, ← hoid]
  exact lookupOrder_of_mem hnd ho

theorem inv_queue_unique {st : OrderBook} (hInv : Inv st) {b b' : Bool}
    {l l' : LevelManager} {id : OrderId} (hl : l ∈ fetch_side st b)
    (hid : id ∈ l.order_queue) (hl' : l' ∈ fetch_side st b')
    (hid' : id ∈ l'.order_queue) : b = b' ∧ l = l' := by
  obtain ⟨o, hfo, _, _, hob, hop⟩ := inv_lookup_of_mem_queue hInv hl hid
  obtain ⟨o', hfo', _, _, hob', hop'⟩ := inv_lookup_of_mem_queue hInv hl' hid'
  have ho : o = o' := by
    rw [hfo] at hfo'
    exact Option.some.inj hfo'
  have hb : b = b' := by rw [← hob, ho, hob']
  have hp : l.price_point = l'.price_point := by rw [← hop, ho, hop']
  refine ⟨hb, ?_⟩
  exact List.inj_on_of_nodup_map (hInv.2.1 b') (hb ▸ hl) hl' hp

theorem inv_level_of_lookup {st : OrderBook} (hInv : Inv st) {id : OrderId}
    {o : Order} (h : findOrder st id = some o) :
    ∃ l, side_find (fetch_side st o.is_buy) o.price = some l ∧
      id ∈ l.order_queue ∧ l.price_point = o.price ∧
      l ∈ fetch_side st o.is_buy := by
  obtain ⟨ho, hoid⟩ := lookupOrder_eq_some h
  have hq := hInv.2.2.2 o ho
  rw [queueAt] at hq
  cases hsf : side_find (fetch_side st o.is_buy) o.price with
  | none => rw [hsf] at hq; cases hq
  | some l =>
    rw [hsf] at hq
    obtain ⟨hm, hp⟩ := side_find_eq_some hsf
    exact ⟨l, rfl, hoid ▸ hq, hp, hm⟩

theorem qtyOf_of_lookup {st : OrderBook} {id : OrderId} {o : Order}
    (h : findOrder st id = some o) : qtyOf st id = o.quantity := by
  rw [qtyOf, h]

theorem cancel_of_not_found {st : OrderBook} {id : OrderId}
    (h : findOrder st id = none) : cancel_order id st = (false, st) := by
  unfold cancel_order
  rw [h]

theorem cancel_found_fst {st : OrderBook} {id : OrderId} {ord : Order}
    (h : findOrder st id = some ord) : (cancel_order id st).1 = true := by
  unfold cancel_order
  rw [h]

theorem cancel_found_active {st : OrderBook} {id : OrderId} {ord : Order}
    (h : findOrder st id = some ord) :
    (cancel_order id st).2.active_orders
      = st.active_orders.eraseP (fun o => decide (o.order_id = id)) := by
  obtain ⟨oid, ob, opr, oqt, ots⟩ := ord
  unfold cancel_order
  rw [h]
  cases ob <;> rfl

theorem cancel_found_trades {st : OrderBook} {id : OrderId} {ord : Order}
    (h : findOrder st id = some ord) :
    (cancel_order id st).2.trades = st.trades := by
  obtain ⟨oid, ob, opr, oqt, ots⟩ := ord
  unfold cancel_order
  rw [h]
  cases ob <;> rfl

theorem cancel_found_side {st : OrderBook} {id : OrderId} {ord : Order}
    (h : findOrder st id = some ord) :
    fetch_side (cancel_order id st).2 ord.is_buy
      = match side_find (fetch_side st ord.is_buy) ord.price with
        | some _ =>
            cleanup_level
              (side_update (fetch_side st ord.is_buy) ord.price
                (fun l => (l.remove_order id ord.quantity).1))
              ord.price
        | none => fetch_side st ord.is_buy := by
  obtain ⟨oid, ob, opr, oqt, ots⟩ := ord
  unfold cancel_order
  rw [h]
  cases ob <;> rfl

theorem cancel_found_other_side {st : OrderBook} {id : OrderId} {ord : Order}
    (h : findOrder st id = some ord) {b' : Bool} (hb : b' ≠ ord.is_buy) :
    fetch_side (cancel_order id st).2 b' = fetch_side st b' := by
  obtain ⟨oid, ob, opr, oqt, ots⟩ := ord
  unfold cancel_order
  rw [h]
  cases hb2 : ob <;> subst hb2 <;> cases hb3 : b' <;> subst hb3 <;>
    first
    | exact absurd rfl hb
    | rfl

end OrderBookSpec

namespace OrderBookSpec

theorem cancel_found_side_eq {st : OrderBook} {id : OrderId} {ord : Order}
    {L : LevelManager} (h : findOrder st id = some ord)
    (hL : side_find (fetch_side st ord.is_buy) ord.price = some L) :
    fetch_side (cancel_order id st).2 ord.is_buy
      = cleanup_level
          (side_update (fetch_side st ord.is_buy) ord.price
            (fun l => (l.remove_order id ord.quantity).1))
          ord.price := by
  rw [cancel_found_side h, hL]

theorem cancel_side_find_self {st : OrderBook} {id : OrderId} {ord : Order}
    {L : LevelManager} (hInv : Inv st) (h : findOrder st id = some ord)
    (hL : side_find (fetch_side st ord.is_buy) ord.price = some L) :
    side_find (fetch_side (cancel_order id st).2 ord.is_buy) ord.price
      = if L.order_queue.erase id = [] then none
        else some ((L.remove_order id ord.quantity).1) := by
  rw [cancel_found_side_eq h hL]
  have hk : KeysOk (side_update (fetch_side st ord.is_buy) ord.price
      (fun l => (l.remove_order id ord.quantity).1)) :=
    keysOk_side_update (fun l => price_remove_order l id ord.quantity)
      (hInv.2.1 ord.is_buy)
  rw [side_find_cleanup_self hk,
      side_find_update_self _ _ _ (fun l => price_remove_order l id ord.quantity),
      hL]
  simp only [Option.map_some']
  by_cases he : L.order_queue.erase id = []
  · rw [if_pos he, if_pos]
    show ((L.remove_order id ord.quantity).1).is_empty = true
    rw [LevelManager.is_empty, queue_remove_order, List.isEmpty_iff]
    exact he
  · rw [if_neg he, if_neg]
    show ¬ ((L.remove_order id ord.quantity).1).is_empty = true
    rw [LevelManager.is_empty, queue_remove_order, List.isEmpty_iff]
    exact he

theorem cancel_side_find_other {st : OrderBook} {id : OrderId} {ord : Order}
    (h : findOrder st id = some ord) {b' : Bool} {q : Price}
    (hne : ¬ (b' = ord.is_buy ∧ q = ord.price)) :
    side_find (fetch_side (cancel_order id st).2 b') q
      = side_find (fetch_side st b') q := by
  by_cases hb : b' = ord.is_buy
  · have hq : q ≠ ord.price := fun hq => hne ⟨hb, hq⟩
    subst hb
    rw [cancel_found_side h]
    cases hL : side_find (fetch_side st ord.is_buy) ord.price with
    | none => rfl
    | some L =>
      rw [side_find_cleanup_ne _ _ hq,
          side_find_update_ne _ _ _ hq
            (fun l => price_remove_order l id ord.quantity)]
  · rw [cancel_found_other_side h hb]

theorem inv_id_not_in_other_queue {st : OrderBook} {id : OrderId} {ord : Order}
    (hInv : Inv st) (h : findOrder st id = some ord) {b' : Bool} {q : Price}
    (hne : ¬ (b' = ord.is_buy ∧ q = ord.price)) : id ∉ queueAt st b' q := by
  intro hidq
  rw [queueAt] at hidq
  cases hsf : side_find (fetch_side st b') q with
  | none => rw [hsf] at hidq; cases hidq
  | some l' =>
    rw [hsf] at hidq
    obtain ⟨hm, hp⟩ := side_find_eq_some hsf
    obtain ⟨o, hfo, _, _, hob, hop⟩ := inv_lookup_of_mem_queue hInv hm hidq
    rw [h] at hfo
    obtain rfl : ord = o := Option.some.inj hfo
    exact hne ⟨hob.symm, (hop.trans hp).symm⟩

theorem cancel_queueAt {st : OrderBook} {id : OrderId} {ord : Order}
    (hInv : Inv st) (h : findOrder st id = some ord) (b' : Bool) (q : Price) :
    queueAt (cancel_order id st).2 b' q = (queueAt st b' q).erase id := by
  obtain ⟨L, hL, hidL, hLp, hLm⟩ := inv_level_of_lookup hInv h
  by_cases hbq : b' = ord.is_buy ∧ q = ord.price
  · obtain ⟨hb, hq⟩ := hbq
    subst hb; subst hq
    rw [queueAt, cancel_side_find_self hInv h hL, queueAt, hL]
    by_cases he : L.order_queue.erase id = []
    · rw [if_pos he]
      exact he.symm
    · rw [if_neg he]
      show ((L.remove_order id ord.quantity).1).order_queue
          = L.order_queue.erase id
      rw [queue_remove_order]
  · rw [queueAt, cancel_side_find_other h hbq, ← queueAt,
        List.erase_of_not_mem (inv_id_not_in_other_queue hInv h hbq)]

end OrderBookSpec

namespace OrderBookSpec

theorem cancel_lookup_ne {st : OrderBook} {id : OrderId} {ord : Order}
    (h : findOrder st id = some ord) {j : OrderId} (hj : j ≠ id) :
    findOrder (cancel_order id st).2 j = findOrder st j := by
  rw [findOrder, cancel_found_active h, lookupOrder_eraseP_ne _ _ hj]
  rfl

theorem cancel_lookup_self {st : OrderBook} {id : OrderId} {ord : Order}
    (hnd : (st.active_orders.map Order.order_id).Nodup)
    (h : findOrder st id = some ord) :
    findOrder (cancel_order id st).2 id = none := by
  rw [findOrder, cancel_found_active h, lookupOrder_eraseP_self hnd]

theorem cancel_mem_orders {st : OrderBook} {id : OrderId} {ord : Order}
    (hnd : (st.active_orders.map Order.order_id).Nodup)
    (h : findOrder st id = some ord) {o' : Order} :
    o' ∈ (cancel_order id st).2.active_orders
      ↔ o'.order_id ≠ id ∧ o' ∈ st.active_orders := by
  rw [cancel_found_active h]
  constructor
  · intro hm
    have hmem : o' ∈ st.active_orders := (List.eraseP_sublist _).subset hm
    refine ⟨?_, hmem⟩
    intro hk
    have hnone := lookupOrder_eraseP_self hnd id
    have hsome : (List.find? (fun o => decide (o.order_id = id))
        (st.active_orders.eraseP (fun o => decide (o.order_id = id)))).isSome :=
      List.find?_isSome.2 ⟨o', hm, by simpa using hk⟩
    rw [lookupOrder] at hnone
    rw [hnone] at hsome
    cases hsome
  · intro hko
    exact (List.mem_eraseP_of_neg (by simpa using hko.1)).2 hko.2

theorem levelOk_transfer {st r : OrderBook} {b : Bool} {l : LevelManager}
    (hok : LevelOk st b l)
    (hlookup : ∀ id' ∈ l.order_queue, findOrder r id' = findOrder st id')
    (hmem : ∀ o ∈ st.active_orders,
      o.order_id ∈ l.order_queue → o ∈ r.active_orders) :
    LevelOk r b l := by
  obtain ⟨hne, hnd, hreg, hsum⟩ := hok
  have hq : ∀ id' ∈ l.order_queue, qtyOf r id' = qtyOf st id' := by
    intro id' hid'
    rw [qtyOf, qtyOf, hlookup id' hid']
  refine ⟨hne, hnd, ?_, ?_⟩
  · intro id' hid'
    obtain ⟨o, ho, hoid, hob, hop⟩ := hreg id' hid'
    exact ⟨o, hmem o ho (hoid ▸ hid'), hoid, hob, hop⟩
  · rw [hsum]
    exact (levelSum_congr hq).symm

theorem cancel_side_prices (st : OrderBook) (id : OrderId) (b' : Bool) :
    ∀ l' ∈ fetch_side (cancel_order id st).2 b',
      ∃ l ∈ fetch_side st b', l'.price_point = l.price_point := by
  intro l' hl'
  cases h : findOrder st id with
  | none =>
    rw [cancel_of_not_found h] at hl'
    exact ⟨l', hl', rfl⟩
  | some ord =>
    by_cases hb : b' = ord.is_buy
    · subst hb
      rw [cancel_found_side h] at hl'
      cases hL : side_find (fetch_side st ord.is_buy) ord.price with
      | none =>
        rw [hL] at hl'
        exact ⟨l', hl', rfl⟩
      | some L =>
        rw [hL] at hl'
        obtain ⟨l0, hl0, hel⟩ := mem_side_update (mem_cleanup hl')
        by_cases hp0 : l0.price_point = ord.price
        · rw [if_pos hp0] at hel
          exact ⟨l0, hl0, by rw [hel, price_remove_order]⟩
        · rw [if_neg hp0] at hel
          exact ⟨l0, hl0, by rw [hel]⟩
    · rw [cancel_found_other_side h hb] at hl'
      exact ⟨l', hl', rfl⟩

theorem noCross_cancel {st : OrderBook} (hnc : NoCross st) (id : OrderId) :
    NoCross (cancel_order id st).2 := by
  intro bl hbl al hal
  obtain ⟨lb, hlb, hpb⟩ := cancel_side_prices st id true bl hbl
  obtain ⟨la, hla, hpa⟩ := cancel_side_prices st id false al hal
  rw [hpb, hpa]
  exact hnc lb hlb la hla

theorem inv_cancel {st : OrderBook} (hInv : Inv st) (id : OrderId) :
    Inv (cancel_order id st).2 := by
  cases h : findOrder st id with
  | none => rw [cancel_of_not_found h]; exact hInv
  | some ord =>
    obtain ⟨L, hL, hidL, hLp, hLm⟩ := inv_level_of_lookup hInv h
    have hnd := hInv.1
    have hrm : ∀ l : LevelManager,
        ((l.remove_order id ord.quantity).1).price_point = l.price_point :=
      fun l => price_remove_order l id ord.quantity
    have hKeysSelf : KeysOk (fetch_side (cancel_order id st).2 ord.is_buy) := by
      rw [cancel_found_side_eq h hL]
      exact keysOk_cleanup
        (keysOk_side_update hrm (hInv.2.1 ord.is_buy)) ord.price
    -- transfer for a level that never references the cancelled id
    have htrans : ∀ b' (l' : LevelManager), LevelOk st b' l' →
        id ∉ l'.order_queue → LevelOk (cancel_order id st).2 b' l' := by
      intro b' l' hok hnid
      apply levelOk_transfer hok
      · intro id' hid'
        exact cancel_lookup_ne h (fun he => hnid (he ▸ hid'))
      · intro o ho hoq
        exact (cancel_mem_orders hnd h).2 ⟨fun he => hnid (he ▸ hoq), ho⟩
    refine ⟨?_, ?_, ?_, ?_⟩
    · rw [cancel_found_active h]
      exact (keys_eraseP_sublist _ _).nodup hnd
    · intro b'
      by_cases hb : b' = ord.is_buy
      · subst hb
        exact hKeysSelf
      · rw [cancel_found_other_side h hb]
        exact hInv.2.1 b'
    · intro b' l' hl'
      by_cases hb : b' = ord.is_buy
      · subst hb
        rw [cancel_found_side_eq h hL] at hl'
        obtain ⟨l0, hl0, hel⟩ := mem_side_update (mem_cleanup hl')
        by_cases hp0 : l0.price_point = ord.price
        · -- the cancelled order's own level, with the id removed
          obtain rfl : L = l0 := by
            have h1 := side_find_of_mem (hInv.2.1 ord.is_buy) hl0
            rw [hp0, hL] at h1
            exact Option.some.inj h1
          rw [if_pos hp0] at hel
          subst hel
          obtain ⟨_, hndq, hreg, hsum⟩ := hInv.2.2.1 ord.is_buy L hLm
          have herase : L.order_queue.erase id ≠ [] := by
            intro he
            have h1 : side_find (fetch_side (cancel_order id st).2 ord.is_buy)
                ord.price = none := by
              rw [cancel_side_find_self hInv h hL, if_pos he]
            rw [cancel_found_side_eq h hL] at h1
            have h2 := side_find_of_mem
              (keysOk_cleanup (keysOk_side_update hrm (hInv.2.1 ord.is_buy))
                ord.price) hl'
            rw [hrm L, hp0] at h2
            rw [h1] at h2
            cases h2
          refine ⟨?_, ?_, ?_, ?_⟩
          · rw [queue_remove_order]
            exact herase
          · rw [queue_remove_order]
            exact (List.erase_sublist id L.order_queue).nodup hndq
          · rw [queue_remove_order]
            intro id' hid'
            have hid'_mem : id' ∈ L.order_queue :=
              (List.erase_sublist id L.order_queue).subset hid'
            have hid'_ne : id' ≠ id := by
              intro he
              exact hndq.not_mem_erase (he ▸ hid')
            obtain ⟨o, ho, hoid, hob, hop⟩ := hreg id' hid'_mem
            refine ⟨o, (cancel_mem_orders hnd h).2
              ⟨fun hk => hid'_ne (hoid ▸ hk), ho⟩, hoid, hob, ?_⟩
            rw [hrm L]
            exact hop
          · have hqid : qtyOf st id = ord.quantity := qtyOf_of_lookup h
            have hsplit := sum_map_erase (qtyOf st) hidL
            rw [hqid] at hsplit
            have hcongr : ((L.order_queue.erase id).map
                  (qtyOf (cancel_order id st).2)).sum
                = ((L.order_queue.erase id).map (qtyOf st)).sum := by
              apply congrArg
              apply List.map_congr_left
              intro id' hid'
              have hid'_ne : id' ≠ id := by
                intro he
                exact hndq.not_mem_erase (he ▸ hid')
              rw [qtyOf, qtyOf, cancel_lookup_ne h hid'_ne]
            rw [levelSum] at hsum
            rw [volume_remove_order _ ord.quantity hidL, levelSum,
                queue_remove_order, hcongr, hsum, hsplit]
            exact Nat.add_sub_cancel_left _ _
        · rw [if_neg hp0] at hel
          rw [hel]
          have hnid : id ∉ l0.order_queue := by
            intro hmem
            obtain ⟨_, heq⟩ := inv_queue_unique hInv hLm hidL hl0 hmem
            exact hp0 (heq ▸ hLp)
          exact htrans _ l0 (hInv.2.2.1 ord.is_buy l0 hl0) hnid
      · rw [cancel_found_other_side h hb] at hl'
        have hnid : id ∉ l'.order_queue := by
          intro hmem
          obtain ⟨heqb, _⟩ := inv_queue_unique hInv hLm hidL hl' hmem
          exact hb heqb.symm
        exact htrans _ l' (hInv.2.2.1 b' l' hl') hnid
    · intro o' ho'
      obtain ⟨hko, hmo⟩ := (cancel_mem_orders hnd h).1 ho'
      have hold := hInv.2.2.2 o' hmo
      rw [cancel_queueAt hInv h]
      exact (List.mem_erase_of_ne hko).2 hold

end OrderBookSpec


namespace OrderBookSpec

theorem enqueue_active (o : Order) (st : OrderBook) :
    (enqueue_order o st).active_orders = st.active_orders ++ [o] := by
  simp only [enqueue_order]
  cases hsf : side_find (fetch_side st o.is_buy) o.price <;>
    simp [set_side_active]

theorem enqueue_trades (o : Order) (st : OrderBook) :
    (enqueue_order o st).trades = st.trades := by
  simp only [enqueue_order]
  cases hsf : side_find (fetch_side st o.is_buy) o.price <;>
    simp [set_side_trades]

theorem enqueue_side_self (o : Order) (st : OrderBook) :
    fetch_side (enqueue_order o st) o.is_buy
      = match side_find (fetch_side st o.is_buy) o.price with
        | some _ => side_update (fetch_side st o.is_buy) o.price
            (fun l => l.push_order o.order_id o.quantity)
        | none => fetch_side st o.is_buy
            ++ [(LevelManager.mk o.price [] 0).push_order o.order_id o.quantity] := by
  simp only [enqueue_order]
  cases hsf : side_find (fetch_side st o.is_buy) o.price <;>
    simp [fetch_set_side_same]

theorem enqueue_other_side (o : Order) (st : OrderBook) {b' : Bool}
    (hb : b' ≠ o.is_buy) :
    fetch_side (enqueue_order o st) b' = fetch_side st b' := by
  simp only [enqueue_order]
  cases hsf : side_find (fetch_side st o.is_buy) o.price <;>
    simp [fetch_set_side_ne st hb]

end OrderBookSpec

namespace OrderBookSpec

theorem enqueue_lookup (o : Order) (st : OrderBook) (j : OrderId) :
    findOrder (enqueue_order o st) j
      = (findOrder st j).or
          (if o.order_id = j then some o else none) := by
  rw [findOrder, enqueue_active, lookupOrder_append]
  have h1 : lookupOrder [o] j = if o.order_id = j then some o else none := by
    by_cases ho : o.order_id = j
    · rw [lookupOrder, List.find?_cons_of_pos _ (by simpa using ho), if_pos ho]
    · rw [lookupOrder, List.find?_cons_of_neg _ (by simpa using ho), if_neg ho]
      rfl
  rw [h1]
  rfl

theorem enqueue_lookup_of_some {st : OrderBook} {j : OrderId} {x : Order}
    (o : Order) (h : findOrder st j = some x) :
    findOrder (enqueue_order o st) j = some x := by
  rw [enqueue_lookup, h]
  rfl

theorem enqueue_lookup_fresh {st : OrderBook} {o : Order}
    (h : findOrder st o.order_id = none) :
    findOrder (enqueue_order o st) o.order_id = some o := by
  rw [enqueue_lookup, h, if_pos rfl]
  rfl

theorem not_mem_keys_of_lookup_none {orders : List Order} {id : OrderId}
    (h : lookupOrder orders id = none) :
    id ∉ orders.map Order.order_id := by
  intro hmem
  obtain ⟨o, ho, hoid⟩ := List.mem_map.1 hmem
  have := List.find?_eq_none.1 h o ho
  simp only [decide_eq_true_eq] at this
  exact this hoid

theorem not_mem_prices_of_side_find_none {s : Side} {p : Price}
    (h : side_find s p = none) :
    p ∉ s.map LevelManager.price_point := by
  intro hmem
  obtain ⟨l, hl, hlp⟩ := List.mem_map.1 hmem
  have := List.find?_eq_none.1 h l hl
  simp only [decide_eq_true_eq] at this
  exact this hlp

theorem enqueue_queueAt (o : Order) (st : OrderBook) (b' : Bool) (q : Price) :
    queueAt (enqueue_order o st) b' q
      = queueAt st b' q
          ++ (if b' = o.is_buy ∧ q = o.price then [o.order_id] else []) := by
  by_cases hb : b' = o.is_buy
  · subst hb
    have hss := enqueue_side_self o st
    cases hsf : side_find (fetch_side st o.is_buy) o.price with
    | some L =>
      simp only [hsf] at hss
      by_cases hq : q = o.price
      · subst hq
        rw [queueAt, hss, side_find_update_self _ _ _
              (fun l => price_push_order l o.order_id o.quantity), hsf]
        rw [queueAt, hsf, if_pos ⟨rfl, rfl⟩]
        rfl
      · rw [queueAt, hss, side_find_update_ne _ _ _ hq
              (fun l => price_push_order l o.order_id o.quantity)]
        rw [← queueAt, if_neg (fun hc => hq hc.2), List.append_nil]
    | none =>
      simp only [hsf] at hss
      by_cases hq : q = o.price
      · subst hq
        rw [queueAt, hss, side_find_append, hsf]
        rw [queueAt, hsf, if_pos ⟨rfl, rfl⟩]
        have h2 : side_find
            [(LevelManager.mk o.price [] 0).push_order o.order_id o.quantity]
            o.price = some ((LevelManager.mk o.price [] 0).push_order
              o.order_id o.quantity) := by
          rw [side_find, List.find?_cons_of_pos _ (by simp)]
        rw [h2]
        rfl
      · have h2 : side_find
            [(LevelManager.mk o.price [] 0).push_order o.order_id o.quantity]
            q = none := by
          rw [side_find,
              List.find?_cons_of_neg _ (by simpa using fun hc => hq hc.symm)]
          rfl
        rw [queueAt, hss, side_find_append, h2, queueAt,
            if_neg (fun hc => hq hc.2), List.append_nil]
        cases hsf2 : side_find (fetch_side st o.is_buy) q <;> rfl
  · rw [queueAt, enqueue_other_side o st hb, ← queueAt,
        if_neg (fun hc => hb hc.1), List.append_nil]

end OrderBookSpec

namespace OrderBookSpec

theorem inv_enqueue {st : OrderBook} {o : Order} (hInv : Inv st)
    (hfresh : findOrder st o.order_id = none) : Inv (enqueue_order o st) := by
  have hnd := hInv.1
  have hpush : ∀ l : LevelManager,
      (l.push_order o.order_id o.quantity).price_point = l.price_point :=
    fun l => rfl
  have hnotin : ∀ b (l : LevelManager), l ∈ fetch_side st b →
      o.order_id ∉ l.order_queue := by
    intro b l hl hmem
    obtain ⟨x, hfx, _, _, _, _⟩ := inv_lookup_of_mem_queue hInv hl hmem
    rw [hfresh] at hfx
    cases hfx
  have hlook : ∀ {id' : OrderId} {b : Bool} {l : LevelManager},
      LevelOk st b l → id' ∈ l.order_queue →
      ∃ x, findOrder st id' = some x ∧
        findOrder (enqueue_order o st) id' = some x := by
    intro id' b l hok hid'
    obtain ⟨x, hx, hxid, _, _⟩ := hok.2.2.1 id' hid'
    have hfx : findOrder st id' = some x := by
      rw [findOrder, ← hxid]
      exact lookupOrder_of_mem hnd hx
    exact ⟨x, hfx, enqueue_lookup_of_some o hfx⟩
  have htrans : ∀ b (l : LevelManager), LevelOk st b l →
      LevelOk (enqueue_order o st) b l := by
    intro b l hok
    apply levelOk_transfer hok
    · intro id' hid'
      obtain ⟨x, hfx, hfx'⟩ := hlook hok hid'
      rw [hfx, hfx']
    · intro o' ho' _
      rw [enqueue_active]
      exact List.mem_append_left _ ho'
  refine ⟨?_, ?_, ?_, ?_⟩
  · rw [enqueue_active, List.map_append, List.nodup_append]
    refine ⟨hnd, List.nodup_singleton _, ?_⟩
    intro a ha hb
    simp only [List.map_cons, List.map_nil, List.mem_singleton] at hb
    subst hb
    exact not_mem_keys_of_lookup_none hfresh ha
  · intro b'
    by_cases hb : b' = o.is_buy
    · subst hb
      have hss := enqueue_side_self o st
      cases hsf : side_find (fetch_side st o.is_buy) o.price with
      | some L =>
        simp only [hsf] at hss
        rw [KeysOk, hss, prices_side_update _ _ _ hpush]
        exact hInv.2.1 o.is_buy
      | none =>
        simp only [hsf] at hss
        rw [KeysOk, hss, List.map_append, List.nodup_append]
        refine ⟨hInv.2.1 o.is_buy, List.nodup_singleton _, ?_⟩
        intro a ha hb2
        simp only [List.map_cons, List.map_nil, List.mem_singleton] at hb2
        rw [hpush] at hb2
        subst hb2
        exact not_mem_prices_of_side_find_none hsf ha
    · rw [enqueue_other_side o st hb]
      exact hInv.2.1 b'
  · intro b' l' hl'
    by_cases hb : b' = o.is_buy
    · subst hb
      have hss := enqueue_side_self o st
      cases hsf : side_find (fetch_side st o.is_buy) o.price with
      | some L =>
        simp only [hsf] at hss
        rw [hss] at hl'
        obtain ⟨l0, hl0, hel⟩ := mem_side_update hl'
        by_cases hp0 : l0.price_point = o.price
        · rw [if_pos hp0] at hel
          subst hel
          obtain ⟨hne0, hnd0, hreg0, hsum0⟩ := hInv.2.2.1 o.is_buy l0 hl0
          refine ⟨?_, ?_, ?_, ?_⟩
          · rw [queue_push_order]
            simp
          · rw [queue_push_order, List.nodup_append]
            refine ⟨hnd0, List.nodup_singleton _, ?_⟩
            intro a ha hb2
            simp only [List.mem_singleton] at hb2
            subst hb2
            exact hnotin o.is_buy l0 hl0 ha
          · rw [queue_push_order]
            intro id' hid'
            rcases List.mem_append.1 hid' with hmem | hmem
            · obtain ⟨x, hx, hxid, hxb, hxp⟩ := hreg0 id' hmem
              refine ⟨x, ?_, hxid, hxb, by rw [hpush]; exact hxp⟩
              rw [enqueue_active]
              exact List.mem_append_left _ hx
            · simp only [List.mem_singleton] at hmem
              subst hmem
              refine ⟨o, ?_, rfl, rfl, ?_⟩
              · rw [enqueue_active]
                exact List.mem_append_right _ (List.mem_singleton_self o)
              · rw [hpush]
                exact hp0.symm
          · have h1 : (l0.order_queue.map (qtyOf (enqueue_order o st))).sum
                = (l0.order_queue.map (qtyOf st)).sum := by
              apply congrArg
              apply List.map_congr_left
              intro id' hid'
              obtain ⟨x, hfx, hfx'⟩ :=
                hlook ⟨hne0, hnd0, hreg0, hsum0⟩ hid'
              rw [qtyOf, qtyOf, hfx, hfx']
            have h2 : qtyOf (enqueue_order o st) o.order_id = o.quantity := by
              rw [qtyOf, enqueue_lookup_fresh hfresh]
            show l0.aggregate_volume + o.quantity = _
            rw [levelSum] at hsum0
            rw [levelSum, queue_push_order, List.map_append, List.sum_append,
                h1, ← hsum0]
            simp only [List.map_cons, List.map_nil, List.sum_cons,
              List.sum_nil, h2]
            simp
        · rw [if_neg hp0] at hel
          rw [hel]
          exact htrans o.is_buy l0 (hInv.2.2.1 o.is_buy l0 hl0)
      | none =>
        simp only [hsf] at hss
        rw [hss] at hl'
        rcases List.mem_append.1 hl' with hmem | hmem
        · exact htrans o.is_buy l' (hInv.2.2.1 o.is_buy l' hmem)
        · simp only [List.mem_singleton] at hmem
          subst hmem
          have h2 : qtyOf (enqueue_order o st) o.order_id = o.quantity := by
            rw [qtyOf, enqueue_lookup_fresh hfresh]
          refine ⟨by simp, by simp, ?_, ?_⟩
          · intro id' hid'
            simp only [queue_push_order, List.nil_append,
              List.mem_singleton] at hid'
            subst hid'
            refine ⟨o, ?_, rfl, rfl, rfl⟩
            rw [enqueue_active]
            exact List.mem_append_right _ (List.mem_singleton_self o)
          · show 0 + o.quantity = _
            rw [levelSum]
            simp only [queue_push_order, List.nil_append, List.map_cons,
              List.map_nil, List.sum_cons, List.sum_nil, h2]
            simp
    · rw [enqueue_other_side o st hb] at hl'
      exact htrans b' l' (hInv.2.2.1 b' l' hl')
  · intro o' ho'
    rw [enqueue_active] at ho'
    rcases List.mem_append.1 ho' with hmem | hmem
    · have hold := hInv.2.2.2 o' hmem
      rw [enqueue_queueAt]
      exact List.mem_append_left _ hold
    · simp only [List.mem_singleton] at hmem
      subst hmem
      rw [enqueue_queueAt, if_pos ⟨rfl, rfl⟩]
      exact List.mem_append_right _ (List.mem_singleton_self _)

end OrderBookSpec

namespace OrderBookSpec

theorem process_match_eq {st : OrderBook} {bid_id ask_id : OrderId}
    {bo ao : Order} (hb : findOrder st bid_id = some bo)
    (ha : findOrder st ask_id = some ao) :
    process_match bid_id ask_id st
      = (if ao.quantity - min bo.quantity ao.quantity = 0
          then (cancel_order ask_id
            (if bo.quantity - min bo.quantity ao.quantity = 0
             then (cancel_order bid_id (match_mid bid_id ask_id bo ao st)).2
             else match_mid bid_id ask_id bo ao st)).2
          else (if bo.quantity - min bo.quantity ao.quantity = 0
             then (cancel_order bid_id (match_mid bid_id ask_id bo ao st)).2
             else match_mid bid_id ask_id bo ao st)) := by
  unfold process_match match_mid
  rw [hb, ha]

theorem match_mid_lookup_bid {bid_id ask_id : OrderId} {bo ao : Order}
    (st : OrderBook) (hne : bid_id ≠ ask_id) :
    findOrder (match_mid bid_id ask_id bo ao st) bid_id
      = (findOrder st bid_id).map
          (fun o => { o with
            quantity := bo.quantity - min bo.quantity ao.quantity }) := by
  rw [findOrder, match_mid]
  show lookupOrder (setOrderQty (setOrderQty st.active_orders bid_id _)
      ask_id _) bid_id = _
  rw [lookupOrder_setOrderQty_ne _ _ _ hne, lookupOrder_setOrderQty_self]
  rfl

theorem match_mid_lookup_ask {bid_id ask_id : OrderId} {bo ao : Order}
    (st : OrderBook) (hne : bid_id ≠ ask_id) :
    findOrder (match_mid bid_id ask_id bo ao st) ask_id
      = ((findOrder st ask_id).map
          (fun o => { o with
            quantity := ao.quantity - min bo.quantity ao.quantity })) := by
  rw [findOrder, match_mid]
  show lookupOrder (setOrderQty (setOrderQty st.active_orders bid_id _)
      ask_id _) ask_id = _
  rw [lookupOrder_setOrderQty_self, lookupOrder_setOrderQty_ne _ _ _
      (fun h => hne h.symm)]
  rfl

theorem match_mid_lookup_other {bid_id ask_id : OrderId} {bo ao : Order}
    (st : OrderBook) {j : OrderId} (hj1 : j ≠ bid_id) (hj2 : j ≠ ask_id) :
    findOrder (match_mid bid_id ask_id bo ao st) j = findOrder st j := by
  rw [findOrder, match_mid]
  show lookupOrder (setOrderQty (setOrderQty st.active_orders bid_id _)
      ask_id _) j = _
  rw [lookupOrder_setOrderQty_ne _ _ _ hj2, lookupOrder_setOrderQty_ne _ _ _ hj1]
  rfl

theorem match_mid_queueAt (bid_id ask_id : OrderId) (bo ao : Order)
    (st : OrderBook) (b : Bool) (q : Price) :
    queueAt (match_mid bid_id ask_id bo ao st) b q = queueAt st b q := by
  have huv : ∀ (p : Price) (m : Nat) (s : Side) (q : Price),
      (match side_find (side_update s p (fun l => l.update_volume m 0)) q with
       | some l => l.order_queue
       | none => ([] : List OrderId))
      = (match side_find s q with
         | some l => l.order_queue
         | none => []) := by
    intro p m s q
    by_cases hq : q = p
    · subst hq
      rw [side_find_update_self s q (fun l => l.update_volume m 0)
          (fun l => rfl)]
      cases side_find s q <;> rfl
    · rw [side_find_update_ne s p (fun l => l.update_volume m 0) hq
          (fun l => rfl)]
  cases b
  · exact huv ao.price _ st.ask_levels q
  · exact huv bo.price _ st.bid_levels q

end OrderBookSpec

namespace OrderBookSpec

theorem mem_setOrderQty {l : List Order} {id : OrderId} {q : Nat} {o' : Order}
    (h : o' ∈ setOrderQty l id q) :
    ∃ o0 ∈ l, o'.order_id = o0.order_id ∧ o'.is_buy = o0.is_buy ∧
      o'.price = o0.price := by
  obtain ⟨o0, ho0, heq⟩ := List.mem_map.1 h
  refine ⟨o0, ho0, ?_⟩
  by_cases h0 : o0.order_id = id
  · rw [if_pos h0] at heq
    rw [← heq]
    exact ⟨rfl, rfl, rfl⟩
  · rw [if_neg h0] at heq
    rw [← heq]
    exact ⟨rfl, rfl, rfl⟩

theorem setOrderQty_mem_of_mem {l : List Order} (id : OrderId) (q : Nat)
    {o0 : Order} (h : o0 ∈ l) :
    ∃ o' ∈ setOrderQty l id q, o'.order_id = o0.order_id ∧
      o'.is_buy = o0.is_buy ∧ o'.price = o0.price := by
  refine ⟨_, List.mem_map_of_mem
    (fun o => if o.order_id = id then { o with quantity := q } else o) h, ?_⟩
  by_cases h0 : o0.order_id = id
  · rw [if_pos h0]
    exact ⟨rfl, rfl, rfl⟩
  · rw [if_neg h0]
    exact ⟨rfl, rfl, rfl⟩

theorem setOrderQty_mem_self {l : List Order} (id : OrderId) (q : Nat)
    {o0 : Order} (h : o0 ∈ l) (h0 : o0.order_id ≠ id) :
    o0 ∈ setOrderQty l id q := by
  refine List.mem_map.2 ⟨o0, h, ?_⟩
  show (if o0.order_id = id then { o0 with quantity := q } else o0) = o0
  rw [if_neg h0]

theorem mem_match_mid {st : OrderBook} {bid_id ask_id : OrderId}
    {bo ao : Order} {o' : Order}
    (h : o' ∈ (match_mid bid_id ask_id bo ao st).active_orders) :
    ∃ o0 ∈ st.active_orders, o'.order_id = o0.order_id ∧
      o'.is_buy = o0.is_buy ∧ o'.price = o0.price := by
  obtain ⟨o1, ho1, h1⟩ := mem_setOrderQty h
  obtain ⟨o0, ho0, h0⟩ := mem_setOrderQty ho1
  exact ⟨o0, ho0, h1.1.trans h0.1, h1.2.1.trans h0.2.1, h1.2.2.trans h0.2.2⟩

theorem match_mid_mem_of_mem {st : OrderBook} (bid_id ask_id : OrderId)
    (bo ao : Order) {x : Order} (h : x ∈ st.active_orders) :
    ∃ x' ∈ (match_mid bid_id ask_id bo ao st).active_orders,
      x'.order_id = x.order_id ∧ x'.is_buy = x.is_buy ∧
      x'.price = x.price := by
  obtain ⟨x1, hx1, h1⟩ := setOrderQty_mem_of_mem bid_id
    (bo.quantity - min bo.quantity ao.quantity) h
  obtain ⟨x2, hx2, h2⟩ := setOrderQty_mem_of_mem ask_id
    (ao.quantity - min bo.quantity ao.quantity) hx1
  exact ⟨x2, hx2, h2.1.trans h1.1, h2.2.1.trans h1.2.1, h2.2.2.trans h1.2.2⟩

theorem match_mid_mem_self {st : OrderBook} {bid_id ask_id : OrderId}
    (bo ao : Order) {x : Order} (h : x ∈ st.active_orders)
    (h1 : x.order_id ≠ bid_id) (h2 : x.order_id ≠ ask_id) :
    x ∈ (match_mid bid_id ask_id bo ao st).active_orders :=
  setOrderQty_mem_self ask_id _ (setOrderQty_mem_self bid_id _ h h1) h2

theorem match_mid_keys (st : OrderBook) (bid_id ask_id : OrderId)
    (bo ao : Order) :
    (match_mid bid_id ask_id bo ao st).active_orders.map Order.order_id
      = st.active_orders.map Order.order_id := by
  show (setOrderQty (setOrderQty st.active_orders bid_id _) ask_id _).map
      Order.order_id = _
  rw [keys_setOrderQty, keys_setOrderQty]

theorem match_mid_qty_other {st : OrderBook} {bid_id ask_id : OrderId}
    {bo ao : Order} {j : OrderId} (hj1 : j ≠ bid_id) (hj2 : j ≠ ask_id) :
    qtyOf (match_mid bid_id ask_id bo ao st) j = qtyOf st j := by
  rw [qtyOf, qtyOf, match_mid_lookup_other st hj1 hj2]

end OrderBookSpec

namespace OrderBookSpec

theorem sum_map_update_one (f g : OrderId → Nat) :
    ∀ {l : List OrderId} {id : OrderId}, id ∈ l → l.Nodup →
    (∀ j ∈ l, j ≠ id → g j = f j) →
    (l.map g).sum + f id = (l.map f).sum + g id := by
  intro l
  induction l with
  | nil => intro id h; cases h
  | cons a t ih =>
    intro id hmem hnd hg
    rw [List.nodup_cons] at hnd
    rcases List.mem_cons.1 hmem with rfl | hmem'
    · have hmapeq : t.map g = t.map f :=
        List.map_congr_left (fun j hj => hg j (List.mem_cons_of_mem id hj)
          (fun he => hnd.1 (he ▸ hj)))
      simp only [List.map_cons, List.sum_cons, hmapeq]
      omega
    · have ha : a ≠ id := fun he => hnd.1 (he ▸ hmem')
      have hga : g a = f a := hg a (List.mem_cons_self a t) ha
      have hih := ih hmem' hnd.2
        (fun j hj hji => hg j (List.mem_cons_of_mem a hj) hji)
      simp only [List.map_cons, List.sum_cons, hga]
      omega

theorem inv_match_mid {st : OrderBook} {bid_id ask_id : OrderId}
    {bo ao : Order} (hInv : Inv st) (hb : findOrder st bid_id = some bo)
    (ha : findOrder st ask_id = some ao) (hbuy : bo.is_buy = true)
    (hsell : ao.is_buy = false) :
    Inv (match_mid bid_id ask_id bo ao st) := by
  have hne : bid_id ≠ ask_id := by
    intro he
    rw [he, ha] at hb
    obtain rfl : ao = bo := Option.some.inj hb
    rw [hbuy] at hsell
    cases hsell
  obtain ⟨Lb, hLb, hbidLb, hLbp, hLbm⟩ := inv_level_of_lookup hInv hb
  obtain ⟨La, hLa, haskLa, hLap, hLam⟩ := inv_level_of_lookup hInv ha
  rw [hbuy] at hLb hLbm
  rw [hsell] at hLa hLam
  have hask_not_bid : ∀ l ∈ st.bid_levels, ask_id ∉ l.order_queue := by
    intro l hl hmem
    obtain ⟨x, hfx, _, _, hxb, _⟩ :=
      inv_lookup_of_mem_queue hInv (b := true) hl hmem
    rw [ha] at hfx
    obtain rfl : ao = x := Option.some.inj hfx
    rw [hsell] at hxb
    cases hxb
  have hbid_not_ask : ∀ l ∈ st.ask_levels, bid_id ∉ l.order_queue := by
    intro l hl hmem
    obtain ⟨x, hfx, _, _, hxb, _⟩ :=
      inv_lookup_of_mem_queue hInv (b := false) hl hmem
    rw [hb] at hfx
    obtain rfl : bo = x := Option.some.inj hfx
    rw [hbuy] at hxb
    cases hxb
  have hbid_only : ∀ l ∈ st.bid_levels, l.price_point ≠ bo.price →
      bid_id ∉ l.order_queue := by
    intro l hl hlp hmem
    obtain ⟨_, heql⟩ :=
      inv_queue_unique hInv (show l ∈ fetch_side st true from hl) hmem
        (show Lb ∈ fetch_side st true from hLbm) hbidLb
    exact hlp (heql ▸ hLbp)
  have hask_only : ∀ l ∈ st.ask_levels, l.price_point ≠ ao.price →
      ask_id ∉ l.order_queue := by
    intro l hl hlp hmem
    obtain ⟨_, heql⟩ :=
      inv_queue_unique hInv (show l ∈ fetch_side st false from hl) hmem
        (show La ∈ fetch_side st false from hLam) haskLa
    exact hlp (heql ▸ hLap)
  have htrans : ∀ b (l0 : LevelManager), LevelOk st b l0 →
      bid_id ∉ l0.order_queue → ask_id ∉ l0.order_queue →
      LevelOk (match_mid bid_id ask_id bo ao st) b l0 := by
    intro b l0 hok hnb hna
    apply levelOk_transfer hok
    · intro id' hid'
      exact match_mid_lookup_other st (fun he => hnb (he ▸ hid'))
        (fun he => hna (he ▸ hid'))
    · intro o ho hoq
      exact match_mid_mem_self bo ao ho (fun he => hnb (he ▸ hoq))
        (fun he => hna (he ▸ hoq))
  refine ⟨?_, ?_, ?_, ?_⟩
  · rw [match_mid_keys]
    exact hInv.1
  · intro b'
    cases b'
    · show KeysOk (side_update st.ask_levels ao.price
        (fun l => l.update_volume (min bo.quantity ao.quantity) 0))
      exact keysOk_side_update (fun l => rfl) (hInv.2.1 false)
    · show KeysOk (side_update st.bid_levels bo.price
        (fun l => l.update_volume (min bo.quantity ao.quantity) 0))
      exact keysOk_side_update (fun l => rfl) (hInv.2.1 true)
  · intro b' l' hl'
    cases b'
    · -- ask side
      have hl'' : l' ∈ side_update st.ask_levels ao.price
          (fun l => l.update_volume (min bo.quantity ao.quantity) 0) := hl'
      obtain ⟨l0, hl0, hel⟩ := mem_side_update hl''
      obtain ⟨hne0, hnd0, hreg0, hsum0⟩ := hInv.2.2.1 false l0 hl0
      have hnbid : bid_id ∉ l0.order_queue := hbid_not_ask l0 hl0
      by_cases hp0 : l0.price_point = ao.price
      · obtain rfl : l0 = La := by
          have h1 := side_find_of_mem (hInv.2.1 false) hl0
          rw [hp0] at h1
          rw [hLa] at h1
          exact (Option.some.inj h1).symm
        rw [if_pos hp0] at hel
        subst hel
        refine ⟨hne0, hnd0, ?_, ?_⟩
        · intro id' hid'
          obtain ⟨x, hx, hxid, hxb, hxp⟩ := hreg0 id' hid'
          obtain ⟨x', hx', hx'id, hx'b, hx'p⟩ :=
            match_mid_mem_of_mem bid_id ask_id bo ao hx
          exact ⟨x', hx', hx'id.trans hxid, hx'b.trans hxb,
            by rw [hx'p, hxp]; rfl⟩
        · have hqask : qtyOf (match_mid bid_id ask_id bo ao st) ask_id
              = ao.quantity - min bo.quantity ao.quantity := by
            rw [qtyOf, match_mid_lookup_ask st hne, ha]
            rfl
          have hqst : qtyOf st ask_id = ao.quantity := qtyOf_of_lookup ha
          have hupd := sum_map_update_one (qtyOf st)
            (qtyOf (match_mid bid_id ask_id bo ao st)) haskLa hnd0
            (fun j hj hji => match_mid_qty_other
              (fun he => hnbid (he ▸ hj)) hji)
          rw [hqst, hqask] at hupd
          rw [levelSum] at hsum0
          show l0.aggregate_volume - min bo.quantity ao.quantity + 0 = _
          rw [levelSum, queue_update_volume]
          rcases Nat.le_total bo.quantity ao.quantity with hle | hle
          · rw [min_eq_left hle] at hupd ⊢
            omega
          · rw [min_eq_right hle] at hupd ⊢
            omega
      · rw [if_neg hp0] at hel
        rw [hel]
        exact htrans false l0 ⟨hne0, hnd0, hreg0, hsum0⟩ hnbid
          (hask_only l0 hl0 hp0)
    · -- bid side
      have hl'' : l' ∈ side_update st.bid_levels bo.price
          (fun l => l.update_volume (min bo.quantity ao.quantity) 0) := hl'
      obtain ⟨l0, hl0, hel⟩ := mem_side_update hl''
      obtain ⟨hne0, hnd0, hreg0, hsum0⟩ := hInv.2.2.1 true l0 hl0
      have hnask : ask_id ∉ l0.order_queue := hask_not_bid l0 hl0
      by_cases hp0 : l0.price_point = bo.price
      · obtain rfl : l0 = Lb := by
          have h1 := side_find_of_mem (hInv.2.1 true) hl0
          rw [hp0] at h1
          rw [hLb] at h1
          exact (Option.some.inj h1).symm
        rw [if_pos hp0] at hel
        subst hel
        refine ⟨hne0, hnd0, ?_, ?_⟩
        · intro id' hid'
          obtain ⟨x, hx, hxid, hxb, hxp⟩ := hreg0 id' hid'
          obtain ⟨x', hx', hx'id, hx'b, hx'p⟩ :=
            match_mid_mem_of_mem bid_id ask_id bo ao hx
          exact ⟨x', hx', hx'id.trans hxid, hx'b.trans hxb,
            by rw [hx'p, hxp]; rfl⟩
        · have hqbid : qtyOf (match_mid bid_id ask_id bo ao st) bid_id
              = bo.quantity - min bo.quantity ao.quantity := by
            rw [qtyOf, match_mid_lookup_bid st hne, hb]
            rfl
          have hqst : qtyOf st bid_id = bo.quantity := qtyOf_of_lookup hb
          have hupd := sum_map_update_one (qtyOf st)
            (qtyOf (match_mid bid_id ask_id bo ao st)) hbidLb hnd0
            (fun j hj hji => match_mid_qty_other hji
              (fun he => hnask (he ▸ hj)))
          rw [hqst, hqbid] at hupd
          rw [levelSum] at hsum0
          show l0.aggregate_volume - min bo.quantity ao.quantity + 0 = _
          rw [levelSum, queue_update_volume]
          rcases Nat.le_total bo.quantity ao.quantity with hle | hle
          · rw [min_eq_left hle] at hupd ⊢
            omega
          · rw [min_eq_right hle] at hupd ⊢
            omega
      · rw [if_neg hp0] at hel
        rw [hel]
        exact htrans true l0 ⟨hne0, hnd0, hreg0, hsum0⟩
          (hbid_only l0 hl0 hp0) hnask
  · intro o' ho'
    obtain ⟨o0, ho0, hid, hbuy', hprice⟩ := mem_match_mid ho'
    have hold := hInv.2.2.2 o0 ho0
    rw [match_mid_queueAt, hid, hbuy', hprice]
    exact hold

end OrderBookSpec

namespace OrderBookSpec

theorem inv_process_match {st : OrderBook} {bid_id ask_id : OrderId}
    {bo ao : Order} (hInv : Inv st) (hb : findOrder st bid_id = some bo)
    (ha : findOrder st ask_id = some ao) (hbuy : bo.is_buy = true)
    (hsell : ao.is_buy = false) :
    Inv (process_match bid_id ask_id st) := by
  rw [process_match_eq hb ha]
  have hmid := inv_match_mid hInv hb ha hbuy hsell
  by_cases h2 : ao.quantity - min bo.quantity ao.quantity = 0
  · rw [if_pos h2]
    by_cases h1 : bo.quantity - min bo.quantity ao.quantity = 0
    · rw [if_pos h1]
      exact inv_cancel (inv_cancel hmid bid_id) ask_id
    · rw [if_neg h1]
      exact inv_cancel hmid ask_id
  · rw [if_neg h2]
    by_cases h1 : bo.quantity - min bo.quantity ao.quantity = 0
    · rw [if_pos h1]
      exact inv_cancel hmid bid_id
    · rw [if_neg h1]
      exact hmid

theorem match_mid_length (st : OrderBook) (bid_id ask_id : OrderId)
    (bo ao : Order) :
    (match_mid bid_id ask_id bo ao st).active_orders.length
      = st.active_orders.length := by
  show (setOrderQty (setOrderQty st.active_orders bid_id _) ask_id _).length = _
  rw [setOrderQty, List.length_map, setOrderQty, List.length_map]

theorem cancel_length_le (id : OrderId) (st : OrderBook) :
    (cancel_order id st).2.active_orders.length
      ≤ st.active_orders.length := by
  cases h : findOrder st id with
  | none => rw [cancel_of_not_found h]
  | some ord =>
    rw [cancel_found_active h]
    exact (List.eraseP_sublist _).length_le

theorem cancel_length_lt {id : OrderId} {st : OrderBook} {ord : Order}
    (h : findOrder st id = some ord) :
    (cancel_order id st).2.active_orders.length
      < st.active_orders.length := by
  rw [cancel_found_active h]
  obtain ⟨hmem, hkey⟩ := lookupOrder_eq_some h
  have hlen := List.length_eraseP_of_mem
    (p := fun o => decide (o.order_id = id)) hmem (by simp [hkey])
  rw [hlen]
  have : 0 < st.active_orders.length := List.length_pos.2 (by
    intro he
    rw [he] at hmem
    cases hmem)
  omega

theorem process_match_length {st : OrderBook} {bid_id ask_id : OrderId}
    {bo ao : Order} (hb : findOrder st bid_id = some bo)
    (ha : findOrder st ask_id = some ao) (hbuy : bo.is_buy = true)
    (hsell : ao.is_buy = false) :
    (process_match bid_id ask_id st).active_orders.length
      < st.active_orders.length := by
  have hne : bid_id ≠ ask_id := by
    intro he
    rw [he, ha] at hb
    obtain rfl : ao = bo := Option.some.inj hb
    rw [hbuy] at hsell
    cases hsell
  rw [process_match_eq hb ha]
  have hmlen := match_mid_length st bid_id ask_id bo ao
  have hone : bo.quantity - min bo.quantity ao.quantity = 0
      ∨ ao.quantity - min bo.quantity ao.quantity = 0 := by
    rcases Nat.le_total bo.quantity ao.quantity with hle | hle
    · left
      rw [min_eq_left hle]
      omega
    · right
      rw [min_eq_right hle]
      omega
  by_cases h2 : ao.quantity - min bo.quantity ao.quantity = 0
  · rw [if_pos h2]
    have hask3 : findOrder
        (if bo.quantity - min bo.quantity ao.quantity = 0
         then (cancel_order bid_id (match_mid bid_id ask_id bo ao st)).2
         else match_mid bid_id ask_id bo ao st) ask_id
        = some { ao with
            quantity := ao.quantity - min bo.quantity ao.quantity } := by
      have hmida : findOrder (match_mid bid_id ask_id bo ao st) ask_id
          = some { ao with
              quantity := ao.quantity - min bo.quantity ao.quantity } := by
        rw [match_mid_lookup_ask st hne, ha]
        rfl
      by_cases h1 : bo.quantity - min bo.quantity ao.quantity = 0
      · rw [if_pos h1]
        have hmidb : findOrder (match_mid bid_id ask_id bo ao st) bid_id
            = some { bo with
                quantity := bo.quantity - min bo.quantity ao.quantity } := by
          rw [match_mid_lookup_bid st hne, hb]
          rfl
        rw [cancel_lookup_ne hmidb (fun he => hne he.symm)]
        exact hmida
      · rw [if_neg h1]
        exact hmida
    calc (cancel_order ask_id _).2.active_orders.length
        < (if bo.quantity - min bo.quantity ao.quantity = 0
           then (cancel_order bid_id (match_mid bid_id ask_id bo ao st)).2
           else match_mid bid_id ask_id bo ao st).active_orders.length :=
          cancel_length_lt hask3
      _ ≤ st.active_orders.length := by
          by_cases h1 : bo.quantity - min bo.quantity ao.quantity = 0
          · rw [if_pos h1]
            calc (cancel_order bid_id _).2.active_orders.length
                ≤ (match_mid bid_id ask_id bo ao st).active_orders.length :=
                  cancel_length_le _ _
              _ = st.active_orders.length := hmlen
          · rw [if_neg h1]
            exact le_of_eq hmlen
  · rw [if_neg h2]
    have h1 : bo.quantity - min bo.quantity ao.quantity = 0 :=
      hone.resolve_right h2
    rw [if_pos h1]
    have hmidb : findOrder (match_mid bid_id ask_id bo ao st) bid_id
        = some { bo with
            quantity := bo.quantity - min bo.quantity ao.quantity } := by
      rw [match_mid_lookup_bid st hne, hb]
      rfl
    calc (cancel_order bid_id _).2.active_orders.length
        < (match_mid bid_id ask_id bo ao st).active_orders.length :=
          cancel_length_lt hmidb
      _ = st.active_orders.length := hmlen

end OrderBookSpec

namespace OrderBookSpec

theorem next_match_none_of_no_orders {st : OrderBook} (hInv : Inv st)
    (h : st.active_orders = []) : next_match? st = none := by
  cases hbm : st.bid_levels.argmax LevelManager.price_point with
  | none =>
    unfold next_match?
    rw [hbm]
  | some bl =>
    exfalso
    have hmem : bl ∈ st.bid_levels := List.argmax_mem (Option.mem_def.2 hbm)
    have hok := hInv.2.2.1 true bl hmem
    cases hq : bl.order_queue with
    | nil => exact hok.1 hq
    | cons a t =>
      obtain ⟨o, ho, _⟩ := hok.2.2.1 a (hq ▸ List.mem_cons_self a t)
      rw [h] at ho
      cases ho

theorem next_match_spec {st : OrderBook} (hInv : Inv st)
    {bid_id ask_id : OrderId} (h : next_match? st = some (bid_id, ask_id)) :
    ∃ bl al bo ao,
      st.bid_levels.argmax LevelManager.price_point = some bl ∧
      st.ask_levels.argmin LevelManager.price_point = some al ∧
      bl.order_queue.head? = some bid_id ∧
      al.order_queue.head? = some ask_id ∧
      findOrder st bid_id = some bo ∧ findOrder st ask_id = some ao ∧
      bo.is_buy = true ∧ ao.is_buy = false := by
  unfold next_match? at h
  cases hbm : st.bid_levels.argmax LevelManager.price_point with
  | none => rw [hbm] at h; cases h
  | some bl =>
  cases ham : st.ask_levels.argmin LevelManager.price_point with
  | none => rw [hbm, ham] at h; cases h
  | some al =>
    rw [hbm, ham] at h
    have h' : (if bl.price_point < al.price_point then none
        else match bl.order_queue, al.order_queue with
          | b1 :: _, a1 :: _ => some (b1, a1)
          | _, _ => none) = some (bid_id, ask_id) := h
    by_cases hlt : bl.price_point < al.price_point
    · rw [if_pos hlt] at h'
      cases h'
    · rw [if_neg hlt] at h'
      cases hq1 : bl.order_queue with
      | nil =>
        rw [hq1] at h'
        cases (show (none : Option (OrderId × OrderId))
          = some (bid_id, ask_id) from h')
      | cons b1 t1 =>
        cases hq2 : al.order_queue with
        | nil =>
          rw [hq1, hq2] at h'
          cases (show (none : Option (OrderId × OrderId))
            = some (bid_id, ask_id) from h')
        | cons a1 t2 =>
          rw [hq1, hq2] at h'
          have hpair : (b1, a1) = (bid_id, ask_id) :=
            Option.some.inj (show some (b1, a1) = some (bid_id, ask_id) from h')
          obtain ⟨hb1, ha1⟩ := Prod.mk.injEq _ _ _ _ ▸ hpair
          subst hb1
          subst ha1
          have hblm : bl ∈ st.bid_levels :=
            List.argmax_mem (Option.mem_def.2 hbm)
          have halm : al ∈ st.ask_levels :=
            List.argmin_mem (Option.mem_def.2 ham)
          obtain ⟨bo, hbo, _, _, hbob, _⟩ :=
            inv_lookup_of_mem_queue hInv
              (show bl ∈ fetch_side st true from hblm)
              (hq1 ▸ List.mem_cons_self b1 t1)
          obtain ⟨ao, hao, _, _, haob, _⟩ :=
            inv_lookup_of_mem_queue hInv
              (show al ∈ fetch_side st false from halm)
              (hq2 ▸ List.mem_cons_self a1 t2)
          exact ⟨bl, al, bo, ao, rfl, rfl, by rw [hq1]; rfl, by rw [hq2]; rfl,
            hbo, hao, hbob, haob⟩

theorem match_step_some {st st' : OrderBook} (hInv : Inv st)
    (h : match_step? st = some st') :
    Inv st' ∧ st'.active_orders.length < st.active_orders.length := by
  rw [match_step?] at h
  cases hn : next_match? st with
  | none => rw [hn] at h; cases h
  | some p =>
    rw [hn] at h
    obtain ⟨bid_id, ask_id⟩ := p
    obtain ⟨_, _, bo, ao, _, _, _, _, hb, ha, hbuy, hsell⟩ :=
      next_match_spec hInv hn
    simp only [Option.map_some'] at h
    obtain rfl : process_match bid_id ask_id st = st' := Option.some.inj h
    exact ⟨inv_process_match hInv hb ha hbuy hsell,
      process_match_length hb ha hbuy hsell⟩

theorem exec_of_none {st : OrderBook} (h : match_step? st = none) :
    ∀ f, execute_matching f st = st
  | 0 => rfl
  | f + 1 => by
    show (match match_step? st with
      | some st' => execute_matching f st'
      | none => st) = st
    rw [h]

theorem execute_matching_spec :
    ∀ (n : Nat) (st : OrderBook), Inv st → st.active_orders.length ≤ n →
    Inv (execute_matching n st) ∧
    match_step? (execute_matching n st) = none ∧
    ∀ f, execute_matching (n + f) st = execute_matching n st := by
  intro n
  induction n with
  | zero =>
    intro st hInv hlen
    have hord : st.active_orders = [] :=
      List.length_eq_zero.1 (Nat.le_zero.1 hlen)
    have hnone : match_step? st = none := by
      rw [match_step?, next_match_none_of_no_orders hInv hord]
      rfl
    exact ⟨hInv, hnone, fun f => exec_of_none hnone (0 + f)⟩
  | succ n ih =>
    intro st hInv hlen
    cases hms : match_step? st with
    | none =>
      have he : ∀ f, execute_matching f st = st := exec_of_none hms
      refine ⟨?_, ?_, ?_⟩
      · rw [he (n + 1)]
        exact hInv
      · rw [he (n + 1)]
        exact hms
      · intro f
        rw [he (n + 1 + f), he (n + 1)]
    | some st' =>
      obtain ⟨hinv', hlt⟩ := match_step_some hInv hms
      have hle' : st'.active_orders.length ≤ n := by omega
      obtain ⟨h1, h2, h3⟩ := ih st' hinv' hle'
      have hstep : execute_matching (n + 1) st = execute_matching n st' := by
        show (match match_step? st with
          | some s => execute_matching n s
          | none => st) = _
        rw [hms]
      refine ⟨?_, ?_, ?_⟩
      · rw [hstep]
        exact h1
      · rw [hstep]
        exact h2
      · intro f
        have hc : n + 1 + f = (n + f) + 1 := by omega
        rw [hc]
        have hstep2 : execute_matching ((n + f) + 1) st
            = execute_matching (n + f) st' := by
          show (match match_step? st with
            | some s => execute_matching (n + f) s
            | none => st) = _
          rw [hms]
        rw [hstep2, h3 f, hstep]

theorem noCross_of_match_step_none {st : OrderBook} (hInv : Inv st)
    (h : match_step? st = none) : NoCross st := by
  intro bl hbl al hal
  have hn : next_match? st = none := by
    rw [match_step?] at h
    exact Option.map_eq_none'.1 h
  cases hbm : st.bid_levels.argmax LevelManager.price_point with
  | none =>
    rw [List.argmax_eq_none] at hbm
    rw [hbm] at hbl
    cases hbl
  | some blm =>
  cases ham : st.ask_levels.argmin LevelManager.price_point with
  | none =>
    rw [List.argmin_eq_none] at ham
    rw [ham] at hal
    cases hal
  | some alm =>
    unfold next_match? at hn
    rw [hbm, ham] at hn
    have hn' : (if blm.price_point < alm.price_point then none
        else match blm.order_queue, alm.order_queue with
          | b1 :: _, a1 :: _ => some (b1, a1)
          | _, _ => none) = (none : Option (OrderId × OrderId)) := hn
    by_cases hlt : blm.price_point < alm.price_point
    · have h1 : bl.price_point ≤ blm.price_point :=
        List.le_of_mem_argmax hbl (Option.mem_def.2 hbm)
      have h2 : alm.price_point ≤ al.price_point :=
        List.le_of_mem_argmin hal (Option.mem_def.2 ham)
      exact lt_of_le_of_lt h1 (lt_of_lt_of_le hlt h2)
    · exfalso
      rw [if_neg hlt] at hn'
      have hblm_mem : blm ∈ st.bid_levels :=
        List.argmax_mem (Option.mem_def.2 hbm)
      have halm_mem : alm ∈ st.ask_levels :=
        List.argmin_mem (Option.mem_def.2 ham)
      have hbq := (hInv.2.2.1 true blm hblm_mem).1
      have haq := (hInv.2.2.1 false alm halm_mem).1
      cases hq1 : blm.order_queue with
      | nil => exact hbq hq1
      | cons b1 t1 =>
        cases hq2 : alm.order_queue with
        | nil => exact haq hq2
        | cons a1 t2 =>
          rw [hq1, hq2] at hn'
          cases (show some (b1, a1) = (none : Option (OrderId × OrderId))
            from hn')

theorem run_matching_spec {st : OrderBook} (hInv : Inv st) :
    Inv (run_matching st) ∧ match_step? (run_matching st) = none := by
  obtain ⟨h1, h2, _⟩ :=
    execute_matching_spec st.active_orders.length st hInv (le_refl _)
  exact ⟨h1, h2⟩

theorem wf_add {st : OrderBook} (hWF : WF st) (o : Order) :
    WF (add_order o st) := by
  unfold add_order
  by_cases hdup : (findOrder st o.order_id).isSome
  · rw [if_pos hdup]
    exact hWF
  · rw [if_neg hdup]
    have hfresh : findOrder st o.order_id = none :=
      Option.not_isSome_iff_eq_none.1 hdup
    have hinv1 := inv_enqueue hWF.1 hfresh
    obtain ⟨h1, h2⟩ := run_matching_spec hinv1
    exact ⟨h1, noCross_of_match_step_none h1 h2⟩

theorem wf_cancel {st : OrderBook} (hWF : WF st) (id : OrderId) :
    WF (cancel_order id st).2 :=
  ⟨inv_cancel hWF.1 id, noCross_cancel hWF.2 id⟩

end OrderBookSpec


namespace OrderBookSpec

theorem amend_not_found {st : OrderBook} {id : OrderId} (p : Price) (q : Nat)
    (h : findOrder st id = none) : amend_order id p q st = (false, st) := by
  unfold amend_order
  rw [h]

theorem amend_price_change {st : OrderBook} {id : OrderId} {ord : Order}
    {p : Price} (q : Nat) (h : findOrder st id = some ord)
    (hp : ord.price ≠ p) :
    amend_order id p q st
      = (true, add_order { ord with price := p, quantity := q }
          (cancel_order id st).2) := by
  obtain ⟨oid, ob, opr, oqt, ots⟩ := ord
  unfold amend_order
  simp only [h]
  rw [if_pos hp]

theorem amend_same_eq {st : OrderBook} {id : OrderId} {ord : Order}
    {L : LevelManager} (q : Nat) (h : findOrder st id = some ord)
    (hsf : side_find (fetch_side st ord.is_buy) ord.price = some L) :
    amend_order id ord.price q st
      = (true,
          { set_side st ord.is_buy
              (side_update (fetch_side st ord.is_buy) ord.price
                (fun l => l.update_volume ord.quantity q)) with
            active_orders := setOrderQty st.active_orders id q }) := by
  obtain ⟨oid, ob, opr, oqt, ots⟩ := ord
  unfold amend_order
  simp only [h] at hsf ⊢
  rw [if_neg (fun hc => hc rfl), hsf]
  cases ob <;> rfl

theorem amend_same_lookup_self {st : OrderBook} {id : OrderId} {ord : Order}
    {L : LevelManager} (q : Nat) (h : findOrder st id = some ord)
    (hsf : side_find (fetch_side st ord.is_buy) ord.price = some L) :
    findOrder (amend_order id ord.price q st).2 id
      = some { ord with quantity := q } := by
  rw [amend_same_eq q h hsf]
  show lookupOrder (setOrderQty st.active_orders id q) id = _
  rw [lookupOrder_setOrderQty_self]
  rw [findOrder] at h
  rw [h]
  rfl

theorem amend_same_lookup_ne {st : OrderBook} {id : OrderId} {ord : Order}
    {L : LevelManager} (q : Nat) (h : findOrder st id = some ord)
    (hsf : side_find (fetch_side st ord.is_buy) ord.price = some L)
    {j : OrderId} (hj : j ≠ id) :
    findOrder (amend_order id ord.price q st).2 j = findOrder st j := by
  rw [amend_same_eq q h hsf]
  show lookupOrder (setOrderQty st.active_orders id q) j = _
  rw [lookupOrder_setOrderQty_ne _ _ _ hj]
  rfl

theorem amend_same_side_self {st : OrderBook} {id : OrderId} {ord : Order}
    {L : LevelManager} (q : Nat) (h : findOrder st id = some ord)
    (hsf : side_find (fetch_side st ord.is_buy) ord.price = some L) :
    fetch_side (amend_order id ord.price q st).2 ord.is_buy
      = side_update (fetch_side st ord.is_buy) ord.price
          (fun l => l.update_volume ord.quantity q) := by
  rw [amend_same_eq q h hsf]
  show fetch_side { set_side st ord.is_buy
      (side_update (fetch_side st ord.is_buy) ord.price
        (fun l => l.update_volume ord.quantity q)) with
    active_orders := setOrderQty st.active_orders id q } ord.is_buy = _
  rw [fetch_side_orders_update, fetch_set_side_same]

theorem amend_same_other_side {st : OrderBook} {id : OrderId} {ord : Order}
    {L : LevelManager} (q : Nat) (h : findOrder st id = some ord)
    (hsf : side_find (fetch_side st ord.is_buy) ord.price = some L)
    {b' : Bool} (hb : b' ≠ ord.is_buy) :
    fetch_side (amend_order id ord.price q st).2 b' = fetch_side st b' := by
  rw [amend_same_eq q h hsf]
  show fetch_side { set_side st ord.is_buy
      (side_update (fetch_side st ord.is_buy) ord.price
        (fun l => l.update_volume ord.quantity q)) with
    active_orders := setOrderQty st.active_orders id q } b' = _
  rw [fetch_side_orders_update, fetch_set_side_ne st hb]

theorem amend_same_trades {st : OrderBook} {id : OrderId} {ord : Order}
    {L : LevelManager} (q : Nat) (h : findOrder st id = some ord)
    (hsf : side_find (fetch_side st ord.is_buy) ord.price = some L) :
    (amend_order id ord.price q st).2.trades = st.trades := by
  rw [amend_same_eq q h hsf]
  show ({ set_side st ord.is_buy
      (side_update (fetch_side st ord.is_buy) ord.price
        (fun l => l.update_volume ord.quantity q)) with
    active_orders := setOrderQty st.active_orders id q }).trades = _
  rw [set_side_trades]

theorem amend_same_queueAt {st : OrderBook} {id : OrderId} {ord : Order}
    {L : LevelManager} (q : Nat) (h : findOrder st id = some ord)
    (hsf : side_find (fetch_side st ord.is_buy) ord.price = some L)
    (b' : Bool) (q' : Price) :
    queueAt (amend_order id ord.price q st).2 b' q' = queueAt st b' q' := by
  by_cases hb : b' = ord.is_buy
  · subst hb
    rw [queueAt, amend_same_side_self q h hsf]
    by_cases hq : q' = ord.price
    · subst hq
      rw [side_find_update_self (fetch_side st ord.is_buy) ord.price
          (fun l => l.update_volume ord.quantity q) (fun l => rfl)]
      rw [queueAt]
      cases side_find (fetch_side st ord.is_buy) ord.price <;> rfl
    · rw [side_find_update_ne (fetch_side st ord.is_buy) ord.price
          (fun l => l.update_volume ord.quantity q) hq (fun l => rfl)]
      rfl
  · rw [queueAt, amend_same_other_side q h hsf hb]
    rfl

theorem inv_amend_same {st : OrderBook} {id : OrderId} {ord : Order}
    (hInv : Inv st) (q : Nat) (h : findOrder st id = some ord) :
    Inv (amend_order id ord.price q st).2 := by
  obtain ⟨L, hsf, hidL, hLp, hLm⟩ := inv_level_of_lookup hInv h
  have hnd := hInv.1
  have htrans : ∀ b (l0 : LevelManager), LevelOk st b l0 →
      id ∉ l0.order_queue →
      LevelOk (amend_order id ord.price q st).2 b l0 := by
    intro b l0 hok hnid
    apply levelOk_transfer hok
    · intro id' hid'
      exact amend_same_lookup_ne q h hsf (fun he => hnid (he ▸ hid'))
    · intro o ho hoq
      rw [amend_same_eq q h hsf]
      exact setOrderQty_mem_self id q ho (fun he => hnid (he ▸ hoq))
  refine ⟨?_, ?_, ?_, ?_⟩
  · rw [amend_same_eq q h hsf]
    show ((setOrderQty st.active_orders id q).map Order.order_id).Nodup
    rw [keys_setOrderQty]
    exact hnd
  · intro b'
    by_cases hb : b' = ord.is_buy
    · subst hb
      rw [KeysOk, amend_same_side_self q h hsf,
          prices_side_update (fetch_side st ord.is_buy) ord.price
            (fun l => l.update_volume ord.quantity q) (fun l => rfl)]
      exact hInv.2.1 ord.is_buy
    · rw [KeysOk, amend_same_other_side q h hsf hb]
      exact hInv.2.1 b'
  · intro b' l' hl'
    by_cases hb : b' = ord.is_buy
    · subst hb
      rw [amend_same_side_self q h hsf] at hl'
      obtain ⟨l0, hl0, hel⟩ := mem_side_update hl'
      obtain ⟨hne0, hnd0, hreg0, hsum0⟩ := hInv.2.2.1 ord.is_buy l0 hl0
      by_cases hp0 : l0.price_point = ord.price
      · obtain rfl : l0 = L := by
          have h1 := side_find_of_mem (hInv.2.1 ord.is_buy) hl0
          rw [hp0] at h1
          rw [hsf] at h1
          exact (Option.some.inj h1).symm
        rw [if_pos hp0] at hel
        subst hel
        refine ⟨hne0, hnd0, ?_, ?_⟩
        · intro id' hid'
          obtain ⟨x, hx, hxid, hxb, hxp⟩ := hreg0 id' hid'
          rw [amend_same_eq q h hsf]
          obtain ⟨x', hx', hx'id, hx'b, hx'p⟩ :=
            setOrderQty_mem_of_mem id q hx
          exact ⟨x', hx', hx'id.trans hxid, hx'b.trans hxb,
            by rw [hx'p, hxp]; rfl⟩
        · have hqnew : qtyOf (amend_order id ord.price q st).2 id = q := by
            rw [qtyOf, amend_same_lookup_self q h hsf]
          have hqold : qtyOf st id = ord.quantity := qtyOf_of_lookup h
          have hupd := sum_map_update_one (qtyOf st)
            (qtyOf (amend_order id ord.price q st).2) hidL hnd0
            (fun j hj hji =>
              by rw [qtyOf, qtyOf, amend_same_lookup_ne q h hsf hji])
          rw [hqold, hqnew] at hupd
          have hle : ord.quantity ≤ (l0.order_queue.map (qtyOf st)).sum := by
            have h2 := List.single_le_sum
              (l := l0.order_queue.map (qtyOf st)) (fun x _ => Nat.zero_le _)
              (qtyOf st id) (List.mem_map_of_mem (qtyOf st) hidL)
            rw [hqold] at h2
            exact h2
          rw [levelSum] at hsum0
          show l0.aggregate_volume - ord.quantity + q = _
          rw [levelSum, queue_update_volume]
          omega
      · rw [if_neg hp0] at hel
        rw [hel]
        have hnid : id ∉ l0.order_queue := by
          intro hmem
          obtain ⟨_, heq⟩ := inv_queue_unique hInv hLm hidL hl0 hmem
          exact hp0 (heq ▸ hLp)
        exact htrans ord.is_buy l0 ⟨hne0, hnd0, hreg0, hsum0⟩ hnid
    · rw [amend_same_other_side q h hsf hb] at hl'
      have hnid : id ∉ l'.order_queue := by
        intro hmem
        obtain ⟨heqb, _⟩ := inv_queue_unique hInv hLm hidL hl' hmem
        exact hb heqb.symm
      exact htrans b' l' (hInv.2.2.1 b' l' hl') hnid
  · intro o' ho'
    rw [amend_same_eq q h hsf] at ho'
    obtain ⟨o0, ho0, hid, hbuy', hprice⟩ :=
      mem_setOrderQty (l := st.active_orders) ho'
    have hold := hInv.2.2.2 o0 ho0
    rw [amend_same_queueAt q h hsf, hid, hbuy', hprice]
    exact hold

theorem noCross_amend_same {st : OrderBook} {id : OrderId} {ord : Order}
    (hInv : Inv st) (hnc : NoCross st) (q : Nat)
    (h : findOrder st id = some ord) :
    NoCross (amend_order id ord.price q st).2 := by
  obtain ⟨L, hsf, _, _, _⟩ := inv_level_of_lookup hInv h
  have hside : ∀ b', ∀ l' ∈ fetch_side (amend_order id ord.price q st).2 b',
      ∃ l ∈ fetch_side st b', l'.price_point = l.price_point := by
    intro b' l' hl'
    by_cases hb : b' = ord.is_buy
    · subst hb
      rw [amend_same_side_self q h hsf] at hl'
      obtain ⟨l0, hl0, hel⟩ := mem_side_update hl'
      by_cases hp0 : l0.price_point = ord.price
      · rw [if_pos hp0] at hel
        exact ⟨l0, hl0, by rw [hel]; rfl⟩
      · rw [if_neg hp0] at hel
        exact ⟨l0, hl0, by rw [hel]⟩
    · rw [amend_same_other_side q h hsf hb] at hl'
      exact ⟨l', hl', rfl⟩
  intro bl hbl al hal
  obtain ⟨lb, hlb, hpb⟩ := hside true bl hbl
  obtain ⟨la, hla, hpa⟩ := hside false al hal
  rw [hpb, hpa]
  exact hnc lb hlb la hla

theorem wf_amend {st : OrderBook} (hWF : WF st) (id : OrderId) (p : Price)
    (q : Nat) : WF (amend_order id p q st).2 := by
  cases h : findOrder st id with
  | none =>
    rw [amend_not_found p q h]
    exact hWF
  | some ord =>
    by_cases hp : ord.price = p
    · subst hp
      exact ⟨inv_amend_same hWF.1 q h, noCross_amend_same hWF.1 hWF.2 q h⟩
    · rw [amend_price_change q h hp]
      exact wf_add (wf_cancel hWF id) _

theorem wf_empty : WF OrderBook.empty := by
  refine ⟨⟨?_, ?_, ?_, ?_⟩, ?_⟩
  · exact List.nodup_nil
  · intro b
    cases b <;> exact List.nodup_nil
  · intro b l hl
    cases b <;> cases hl
  · intro o ho
    cases ho
  · intro bl hbl
    cases hbl

theorem wf_reachable {st : OrderBook} (h : Reachable st) : WF st := by
  induction h with
  | empty => exact wf_empty
  | add o hst ih => exact wf_add ih o
  | cancel id hst ih => exact wf_cancel ih id
  | amend id p q hst ih => exact wf_amend ih id p q

end OrderBookSpec

namespace OrderBookSpec

theorem cancel_trades_eq (id : OrderId) (s : OrderBook) :
    (cancel_order id s).2.trades = s.trades := by
  cases h : findOrder s id with
  | none => rw [cancel_of_not_found h]
  | some ord => exact cancel_found_trades h

theorem cancel_queue_sublist {st : OrderBook} (hInv : Inv st) (id : OrderId)
    (b : Bool) (q : Price) :
    (queueAt (cancel_order id st).2 b q).Sublist (queueAt st b q) := by
  cases h : findOrder st id with
  | none =>
    rw [cancel_of_not_found h]
  | some ord =>
    rw [cancel_queueAt hInv h]
    exact List.erase_sublist _ _

theorem match_step_queue_sublist {st st' : OrderBook} (hInv : Inv st)
    (h : match_step? st = some st') (b : Bool) (q : Price) :
    (queueAt st' b q).Sublist (queueAt st b q) := by
  rw [match_step?] at h
  cases hn : next_match? st with
  | none => rw [hn] at h; cases h
  | some p =>
    rw [hn] at h
    obtain ⟨bid_id, ask_id⟩ := p
    obtain ⟨_, _, bo, ao, _, _, _, _, hb, ha, hbuy, hsell⟩ :=
      next_match_spec hInv hn
    simp only [Option.map_some'] at h
    obtain rfl : process_match bid_id ask_id st = st' := Option.some.inj h
    rw [process_match_eq hb ha]
    have hmid := inv_match_mid hInv hb ha hbuy hsell
    have hmq : queueAt (match_mid bid_id ask_id bo ao st) b q
        = queueAt st b q := match_mid_queueAt bid_id ask_id bo ao st b q
    by_cases h2 : ao.quantity - min bo.quantity ao.quantity = 0
    · rw [if_pos h2]
      by_cases h1 : bo.quantity - min bo.quantity ao.quantity = 0
      · rw [if_pos h1]
        have i3 := inv_cancel hmid bid_id
        have s3 := cancel_queue_sublist hmid bid_id b q
        have s4 := cancel_queue_sublist i3 ask_id b q
        rw [hmq] at s3
        exact s4.trans s3
      · rw [if_neg h1]
        have s4 := cancel_queue_sublist hmid ask_id b q
        rw [hmq] at s4
        exact s4
    · rw [if_neg h2]
      by_cases h1 : bo.quantity - min bo.quantity ao.quantity = 0
      · rw [if_pos h1]
        have s3 := cancel_queue_sublist hmid bid_id b q
        rw [hmq] at s3
        exact s3
      · rw [if_neg h1]
        rw [hmq]

theorem exec_queue_sublist :
    ∀ (n : Nat) {st : OrderBook}, Inv st → ∀ (b : Bool) (q : Price),
    (queueAt (execute_matching n st) b q).Sublist (queueAt st b q) := by
  intro n
  induction n with
  | zero =>
    intro st _ b q
    exact List.Sublist.refl _
  | succ n ih =>
    intro st hInv b q
    cases hms : match_step? st with
    | none =>
      rw [exec_of_none hms (n + 1)]
    | some st' =>
      have hstep : execute_matching (n + 1) st = execute_matching n st' := by
        show (match match_step? st with
          | some s => execute_matching n s
          | none => st) = _
        rw [hms]
      rw [hstep]
      have hInv' := (match_step_some hInv hms).1
      exact (ih hInv' b q).trans (match_step_queue_sublist hInv hms b q)

theorem next_match_heads {s : OrderBook} {bid_id ask_id : OrderId}
    (h : next_match? s = some (bid_id, ask_id)) :
    ∃ bl al, s.bid_levels.argmax LevelManager.price_point = some bl ∧
      s.ask_levels.argmin LevelManager.price_point = some al ∧
      bl.order_queue.head? = some bid_id ∧
      al.order_queue.head? = some ask_id := by
  unfold next_match? at h
  cases hbm : s.bid_levels.argmax LevelManager.price_point with
  | none => rw [hbm] at h; cases h
  | some bl =>
  cases ham : s.ask_levels.argmin LevelManager.price_point with
  | none => rw [hbm, ham] at h; cases h
  | some al =>
    rw [hbm, ham] at h
    have h' : (if bl.price_point < al.price_point then none
        else match bl.order_queue, al.order_queue with
          | b1 :: _, a1 :: _ => some (b1, a1)
          | _, _ => none) = some (bid_id, ask_id) := h
    by_cases hlt : bl.price_point < al.price_point
    · rw [if_pos hlt] at h'
      cases h'
    · rw [if_neg hlt] at h'
      cases hq1 : bl.order_queue with
      | nil =>
        rw [hq1] at h'
        cases (show (none : Option (OrderId × OrderId))
          = some (bid_id, ask_id) from h')
      | cons b1 t1 =>
        cases hq2 : al.order_queue with
        | nil =>
          rw [hq1, hq2] at h'
          cases (show (none : Option (OrderId × OrderId))
            = some (bid_id, ask_id) from h')
        | cons a1 t2 =>
          rw [hq1, hq2] at h'
          have hpair : (b1, a1) = (bid_id, ask_id) :=
            Option.some.inj
              (show some (b1, a1) = some (bid_id, ask_id) from h')
          obtain ⟨hb1, ha1⟩ := Prod.mk.injEq _ _ _ _ ▸ hpair
          subst hb1
          subst ha1
          exact ⟨bl, al, rfl, rfl, by rw [hq1]; rfl, by rw [hq2]; rfl⟩

theorem demo_book_reachable : Reachable demo_book := by
  show Reachable (add_order (Order.mk 2 true p5050 200 11)
    (add_order (Order.mk 1 true p5025 100 10) OrderBook.empty))
  exact Reachable.add _ (Reachable.add _ Reachable.empty)

theorem fifty_quarter_eq : (50.25 : ℚ) = p5025 := by
  rw [p5025, Rat.mk'_eq_divInt, Rat.divInt_eq_div]
  norm_num

theorem fifty_half_eq : (50.50 : ℚ) = p5050 := by
  rw [p5050, Rat.mk'_eq_divInt, Rat.divInt_eq_div]
  norm_num

end OrderBookSpec

namespace OrderBookSpec

/-- C1: after every completed public operation (any reachable book state), if
both the bid side and the ask side are non-empty, the best (maximum) bid
price is strictly below the best (minimum) ask price. -/
theorem C1_book_never_crossed {st : OrderBook} (h : Reachable st)
    {bl al : LevelManager}
    (hbl : st.bid_levels.argmax LevelManager.price_point = some bl)
    (hal : st.ask_levels.argmin LevelManager.price_point = some al) :
    bl.price_point < al.price_point :=
  (wf_reachable h).2 bl (List.argmax_mem (Option.mem_def.2 hbl)) al
    (List.argmin_mem (Option.mem_def.2 hal))

/-- C2 as written is refuted: the emitted trade record carries only the two
resting identifiers and the two resting prices, not the matched quantity.
Two runs that match different quantities (50 versus 70) against the same
resting bid produce identical trade logs even though the resting order is
filled differently. -/
theorem C2_counterexample :
    (add_order (Order.mk 2 false (50 : ℚ) 50 2)
        (add_order (Order.mk 1 true (50 : ℚ) 100 1) OrderBook.empty)).trades
      = (add_order (Order.mk 2 false (50 : ℚ) 70 2)
          (add_order (Order.mk 1 true (50 : ℚ) 100 1)
            OrderBook.empty)).trades ∧
    findOrder (add_order (Order.mk 2 false (50 : ℚ) 50 2)
        (add_order (Order.mk 1 true (50 : ℚ) 100 1) OrderBook.empty)) 1
      ≠ findOrder (add_order (Order.mk 2 false (50 : ℚ) 70 2)
          (add_order (Order.mk 1 true (50 : ℚ) 100 1) OrderBook.empty)) 1 := by
  decide

/-- C2 (amended): every match emits exactly one trade notification, appended
to the log, carrying the resting bid id, the bid's resting price, the
resting ask id and the ask's resting price — no single execution price and,
contrary to the claim, no matched quantity. -/
theorem C2_trade_notification {st : OrderBook} {bid_id ask_id : OrderId}
    {bo ao : Order} (hb : findOrder st bid_id = some bo)
    (ha : findOrder st ask_id = some ao) :
    (process_match bid_id ask_id st).trades
      = st.trades ++ [Trade.mk bid_id bo.price ask_id ao.price] := by
  rw [process_match_eq hb ha]
  have hmid : (match_mid bid_id ask_id bo ao st).trades
      = st.trades ++ [Trade.mk bid_id bo.price ask_id ao.price] := rfl
  by_cases h2 : ao.quantity - min bo.quantity ao.quantity = 0
  · rw [if_pos h2]
    by_cases h1 : bo.quantity - min bo.quantity ao.quantity = 0
    · rw [if_pos h1, cancel_trades_eq, cancel_trades_eq]
      exact hmid
    · rw [if_neg h1, cancel_trades_eq]
      exact hmid
  · rw [if_neg h2]
    by_cases h1 : bo.quantity - min bo.quantity ao.quantity = 0
    · rw [if_pos h1, cancel_trades_eq]
      exact hmid
    · rw [if_neg h1]
      exact hmid

/-- Closed instance of the amended C2 theorem on a concrete crossed book. -/
theorem C2_witness :
    (process_match 1 2 (OrderBook.mk [LevelManager.mk (50 : ℚ) [1] 100]
        [LevelManager.mk (49 : ℚ) [2] 50]
        [Order.mk 1 true (50 : ℚ) 100 1, Order.mk 2 false (49 : ℚ) 50 2]
        [])).trades
      = [Trade.mk 1 (50 : ℚ) 2 (49 : ℚ)] :=
  @C2_trade_notification
    (OrderBook.mk [LevelManager.mk (50 : ℚ) [1] 100]
      [LevelManager.mk (49 : ℚ) [2] 50]
      [Order.mk 1 true (50 : ℚ) 100 1, Order.mk 2 false (49 : ℚ) 50 2] [])
    1 2 (Order.mk 1 true (50 : ℚ) 100 1) (Order.mk 2 false (49 : ℚ) 50 2)
    (by decide) (by decide)

/-- C3: in every reachable book state, every indexed level's aggregate
quantity equals the sum of the remaining quantities of the orders referenced
by its queue, and no indexed level has an empty queue. -/
theorem C3_level_aggregates {st : OrderBook} (h : Reachable st) (b : Bool)
    {l : LevelManager} (hl : l ∈ fetch_side st b) :
    l.aggregate_volume = levelSum st l ∧ l.order_queue ≠ [] := by
  have hok := (wf_reachable h).1.2.2.1 b l hl
  exact ⟨hok.2.2.2, hok.1⟩

/-- Closed instance of C3 on the 50.25 level of the demo book. -/
theorem C3_witness :
    (LevelManager.mk p5025 [1] 100).aggregate_volume
        = levelSum demo_book (LevelManager.mk p5025 [1] 100) ∧
    (LevelManager.mk p5025 [1] 100).order_queue ≠ [] :=
  @C3_level_aggregates demo_book demo_book_reachable true
    (LevelManager.mk p5025 [1] 100) (by decide)

/-- C4: inserting sell 50@50.25 (id 3) into the book holding bids 100@50.25
(id 1) and 200@50.50 (id 2) with an empty ask side matches against the best
bid 50.50 first: one trade pairs id 2 with id 3, id 3 is fully filled and
removed, and id 2 rests with quantity 150 at 50.50. -/
theorem C4_scenario_b :
    scenario_b_book.trades = [Trade.mk 2 (50.50 : ℚ) 3 (50.25 : ℚ)] ∧
    findOrder scenario_b_book 2 = some (Order.mk 2 true (50.50 : ℚ) 150 11) ∧
    findOrder scenario_b_book 3 = none ∧
    queueAt scenario_b_book true (50.50 : ℚ) = [2] ∧
    volumeAt scenario_b_book true (50.50 : ℚ) = 150 ∧
    queueAt scenario_b_book true (50.25 : ℚ) = [1] ∧
    scenario_b_book.ask_levels = [] := by
  rw [fifty_quarter_eq, fifty_half_eq]
  decide

/-- C5: amending an active order to a different price produces exactly the
state of the specification's composite `amend_spec`: cancel the id, then add
a fresh order with the same identifier at the new price and quantity (so the
order re-enters at the tail of the new level and may trigger matching). -/
theorem C5_amend_refines_cancel_add {st : OrderBook} {id : OrderId}
    {ord : Order} (p : Price) (q : Nat) (h : findOrder st id = some ord)
    (hp : ord.price ≠ p) :
    amend_order id p q st = (true, amend_spec ord p q st) := by
  obtain ⟨_, hid⟩ := lookupOrder_eq_some h
  rw [amend_price_change q h hp, amend_spec, hid]

/-- Closed instance of C5: the demo's scenario D amendment of id 2 from
50.50 to 49.75 with quantity 300. -/
theorem C5_witness :
    amend_order 2 p4975 300 demo_book
      = (true,
          amend_spec (Order.mk 2 true p5050 200 11) p4975 300 demo_book) :=
  @C5_amend_refines_cancel_add demo_book 2 (Order.mk 2 true p5050 200 11)
    p4975 300 (by decide) (by decide)

end OrderBookSpec

namespace OrderBookSpec

/-- Closed instance of C1: after resting a sell 80@51 on the demo book, the
best bid 50.50 is below the best ask 51. -/
theorem C1_witness :
    (LevelManager.mk p5050 [2] 200).price_point
      < (LevelManager.mk (51 : ℚ) [3] 80).price_point :=
  @C1_book_never_crossed
    (add_order (Order.mk 3 false (51 : ℚ) 80 12) demo_book)
    (Reachable.add _ demo_book_reachable)
    (LevelManager.mk p5050 [2] 200) (LevelManager.mk (51 : ℚ) [3] 80)
    (by decide) (by decide)

/-- C6: cancelling an unknown id returns false and leaves the book untouched;
cancelling an active id returns true, deletes it from the registry while
every other registry entry is unchanged, erases it from its level's queue
(and from no other queue), subtracts its remaining quantity from that
level's aggregate, evicts the level exactly when its queue empties, and
never emits a trade (the matching loop is not run). -/
theorem C6_cancel_semantics {st : OrderBook} (h : Reachable st)
    (id : OrderId) :
    (findOrder st id = none → cancel_order id st = (false, st)) ∧
    (∀ ord, findOrder st id = some ord →
      (cancel_order id st).1 = true ∧
      findOrder (cancel_order id st).2 id = none ∧
      (∀ j, j ≠ id → findOrder (cancel_order id st).2 j = findOrder st j) ∧
      (∀ (b : Bool) (q : Price),
        queueAt (cancel_order id st).2 b q = (queueAt st b q).erase id) ∧
      volumeAt (cancel_order id st).2 ord.is_buy ord.price
        = volumeAt st ord.is_buy ord.price - ord.quantity ∧
      ((queueAt st ord.is_buy ord.price).erase id = [] →
        side_find (fetch_side (cancel_order id st).2 ord.is_buy) ord.price
          = none) ∧
      (cancel_order id st).2.trades = st.trades) := by
  have hInv := (wf_reachable h).1
  refine ⟨fun hn => cancel_of_not_found hn, ?_⟩
  intro ord hord
  obtain ⟨L, hL, hidL, hLp, hLm⟩ := inv_level_of_lookup hInv hord
  have hqa : queueAt st ord.is_buy ord.price = L.order_queue := by
    unfold queueAt
    rw [hL]
  refine ⟨cancel_found_fst hord, cancel_lookup_self hInv.1 hord,
    fun j hj => cancel_lookup_ne hord hj, cancel_queueAt hInv hord, ?_, ?_,
    cancel_found_trades hord⟩
  · have hres := cancel_side_find_self hInv hord hL
    have h2 : volumeAt st ord.is_buy ord.price = L.aggregate_volume := by
      unfold volumeAt
      rw [hL]
    by_cases he : L.order_queue.erase id = []
    · rw [if_pos he] at hres
      have h1 : volumeAt (cancel_order id st).2 ord.is_buy ord.price = 0 := by
        unfold volumeAt
        rw [hres]
      have hsum := (hInv.2.2.1 ord.is_buy L hLm).2.2.2
      rw [levelSum] at hsum
      have hsplit := sum_map_erase (qtyOf st) hidL
      rw [he] at hsplit
      simp only [List.map_nil, List.sum_nil] at hsplit
      have hq := qtyOf_of_lookup hord
      rw [h1, h2, hsum]
      omega
    · rw [if_neg he] at hres
      have h1 : volumeAt (cancel_order id st).2 ord.is_buy ord.price
          = (L.remove_order id ord.quantity).1.aggregate_volume := by
        unfold volumeAt
        rw [hres]
      rw [h1, h2, volume_remove_order L ord.quantity hidL]
  · intro he
    rw [hqa] at he
    rw [cancel_side_find_self hInv hord hL, if_pos he]

/-- Closed instance of C6: cancelling the unknown id 9999 on the demo book
returns false and changes nothing; cancelling the active id 1 returns
true. -/
theorem C6_witness :
    cancel_order 9999 demo_book = (false, demo_book) ∧
    (cancel_order 1 demo_book).1 = true :=
  ⟨(C6_cancel_semantics demo_book_reachable 9999).1 (by decide),
   ((C6_cancel_semantics demo_book_reachable 1).2
      (Order.mk 1 true p5025 100 10) (by decide)).1⟩

/-- C7: adding an order whose identifier is already active returns the book
completely unchanged (registry, both side indexes, every queue and
aggregate), and the matching loop is not run. -/
theorem C7_duplicate_add_noop {st : OrderBook} {o : Order}
    (h : (findOrder st o.order_id).isSome) : add_order o st = st := by
  unfold add_order
  rw [if_pos h]

/-- Closed instance of C7: re-adding id 1 (with different fields) leaves the
demo book intact. -/
theorem C7_witness :
    add_order (Order.mk 1 false p5050 10 99) demo_book = demo_book :=
  @C7_duplicate_add_noop demo_book (Order.mk 1 false p5050 10 99) (by decide)

end OrderBookSpec

namespace OrderBookSpec

/-- C8: queue order within a level is only ever appended to or thinned,
never reordered — cancellation leaves every queue a subsequence of itself,
a same-price amendment leaves every queue exactly unchanged, an insertion
leaves every queue a subsequence of the old queue with at most the new id
appended at the tail — and whenever the matching loop selects a pair it is
the head (oldest) identifier of the best level on each side. -/
theorem C8_fifo_preserved {st : OrderBook} (h : Reachable st) :
    (∀ (id : OrderId) (b : Bool) (q : Price),
      (queueAt (cancel_order id st).2 b q).Sublist (queueAt st b q)) ∧
    (∀ (id : OrderId) (qn : Nat) (ord : Order), findOrder st id = some ord →
      ∀ (b : Bool) (q' : Price),
        queueAt (amend_order id ord.price qn st).2 b q' = queueAt st b q') ∧
    (∀ (o : Order) (b : Bool) (q : Price),
      (queueAt (add_order o st) b q).Sublist
        (queueAt st b q
          ++ (if b = o.is_buy ∧ q = o.price then [o.order_id] else []))) ∧
    (∀ (s : OrderBook) (bid_id ask_id : OrderId),
      next_match? s = some (bid_id, ask_id) →
      ∃ bl al, s.bid_levels.argmax LevelManager.price_point = some bl ∧
        s.ask_levels.argmin LevelManager.price_point = some al ∧
        bl.order_queue.head? = some bid_id ∧
        al.order_queue.head? = some ask_id) := by
  have hInv := (wf_reachable h).1
  refine ⟨fun id b q => cancel_queue_sublist hInv id b q, ?_, ?_,
    fun s bid_id ask_id hn => next_match_heads hn⟩
  · intro id qn ord hord b q'
    obtain ⟨L, hsf, _, _, _⟩ := inv_level_of_lookup hInv hord
    exact amend_same_queueAt qn hord hsf b q'
  · intro o b q
    unfold add_order
    by_cases hdup : (findOrder st o.order_id).isSome
    · rw [if_pos hdup]
      exact List.sublist_append_left _ _
    · rw [if_neg hdup]
      have hfresh : findOrder st o.order_id = none :=
        Option.not_isSome_iff_eq_none.1 hdup
      have hinv1 := inv_enqueue hInv hfresh
      have hsub := exec_queue_sublist
        (enqueue_order o st).active_orders.length hinv1 b q
      rw [enqueue_queueAt] at hsub
      exact hsub

/-- Closed instance of C8 on the demo book: cancelling 1 thins the 50.25
queue, amending 1 in place leaves the 50.50 queue unchanged, adding id 3 at
50.25 appends at the tail, and a crossed one-level book matches its two
queue heads. -/
theorem C8_witness :
    (queueAt (cancel_order 1 demo_book).2 true p5025).Sublist
      (queueAt demo_book true p5025) ∧
    queueAt (amend_order 1 p5025 70 demo_book).2 true p5050
      = queueAt demo_book true p5050 ∧
    (queueAt (add_order (Order.mk 3 true p5025 40 12) demo_book) true
        p5025).Sublist (queueAt demo_book true p5025 ++ [3]) ∧
    (∃ bl al,
      (OrderBook.mk [LevelManager.mk (50 : ℚ) [7] 10]
          [LevelManager.mk (49 : ℚ) [8] 10] [] []).bid_levels.argmax
          LevelManager.price_point = some bl ∧
      (OrderBook.mk [LevelManager.mk (50 : ℚ) [7] 10]
          [LevelManager.mk (49 : ℚ) [8] 10] [] []).ask_levels.argmin
          LevelManager.price_point = some al ∧
      bl.order_queue.head? = some 7 ∧
      al.order_queue.head? = some 8) :=
  ⟨(C8_fifo_preserved demo_book_reachable).1 1 true p5025,
   (C8_fifo_preserved demo_book_reachable).2.1 1 70
     (Order.mk 1 true p5025 100 10) (by decide) true p5050,
   (C8_fifo_preserved demo_book_reachable).2.2.1
     (Order.mk 3 true p5025 40 12) true p5025,
   (C8_fifo_preserved demo_book_reachable).2.2.2
     (OrderBook.mk [LevelManager.mk (50 : ℚ) [7] 10]
       [LevelManager.mk (49 : ℚ) [8] 10] [] []) 7 8 (by decide)⟩

/-- C9: the matching loop run at the end of an insertion terminates within
registry-size many iterations: with the registry size as fuel it reaches a
state where no further match step applies (the book has uncrossed, a side
has emptied, or the defensive empty-queue guard fires), and any extra fuel
leaves the result unchanged. -/
theorem C9_matching_terminates {st : OrderBook} (h : Reachable st)
    (o : Order) (hfresh : findOrder st o.order_id = none) :
    match_step? (run_matching (enqueue_order o st)) = none ∧
    ∀ f, execute_matching
        ((enqueue_order o st).active_orders.length + f) (enqueue_order o st)
      = run_matching (enqueue_order o st) := by
  have hinv := inv_enqueue (wf_reachable h).1 hfresh
  obtain ⟨_, h2, h3⟩ := execute_matching_spec
    (enqueue_order o st).active_orders.length (enqueue_order o st) hinv
    (le_refl _)
  exact ⟨h2, h3⟩

/-- Closed instance of C9: the crossing sell 50@50.25 (id 3) on the demo
book matches and the loop stops; two extra fuel units change nothing. -/
theorem C9_witness :
    match_step? (run_matching
      (enqueue_order (Order.mk 3 false p5025 50 12) demo_book)) = none ∧
    execute_matching
        ((enqueue_order (Order.mk 3 false p5025 50 12)
            demo_book).active_orders.length + 2)
        (enqueue_order (Order.mk 3 false p5025 50 12) demo_book)
      = run_matching (enqueue_order (Order.mk 3 false p5025 50 12)
          demo_book) :=
  ⟨(@C9_matching_terminates demo_book demo_book_reachable
      (Order.mk 3 false p5025 50 12) (by decide)).1,
   (@C9_matching_terminates demo_book demo_book_reachable
      (Order.mk 3 false p5025 50 12) (by decide)).2 2⟩

/-- C10: a same-price amendment of an active order to quantity 0 returns
true and leaves the order resting: the id stays registered with remaining
quantity 0, stays in its level's queue, the level's aggregate drops by the
old quantity, and the level remains indexed (not evicted). -/
theorem C10_amend_to_zero {st : OrderBook} (h : Reachable st)
    {id : OrderId} {ord : Order} (hord : findOrder st id = some ord) :
    (amend_order id ord.price 0 st).1 = true ∧
    findOrder (amend_order id ord.price 0 st).2 id
      = some { ord with quantity := 0 } ∧
    id ∈ queueAt (amend_order id ord.price 0 st).2 ord.is_buy ord.price ∧
    volumeAt (amend_order id ord.price 0 st).2 ord.is_buy ord.price
      = volumeAt st ord.is_buy ord.price - ord.quantity ∧
    (side_find (fetch_side (amend_order id ord.price 0 st).2 ord.is_buy)
        ord.price).isSome = true := by
  have hInv := (wf_reachable h).1
  obtain ⟨L, hsf, hidL, hLp, hLm⟩ := inv_level_of_lookup hInv hord
  have hfind : side_find
      (fetch_side (amend_order id ord.price 0 st).2 ord.is_buy) ord.price
      = some (L.update_volume ord.quantity 0) := by
    rw [amend_same_side_self 0 hord hsf,
        side_find_update_self (fetch_side st ord.is_buy) ord.price
          (fun l => l.update_volume ord.quantity 0) (fun l => rfl), hsf]
    rfl
  refine ⟨?_, amend_same_lookup_self 0 hord hsf, ?_, ?_, ?_⟩
  · rw [amend_same_eq 0 hord hsf]
  · rw [amend_same_queueAt 0 hord hsf]
    have hq : queueAt st ord.is_buy ord.price = L.order_queue := by
      unfold queueAt
      rw [hsf]
    rw [hq]
    exact hidL
  · have h1 : volumeAt (amend_order id ord.price 0 st).2 ord.is_buy ord.price
        = L.aggregate_volume - ord.quantity + 0 := by
      unfold volumeAt
      rw [hfind]
      rfl
    have h2 : volumeAt st ord.is_buy ord.price = L.aggregate_volume := by
      unfold volumeAt
      rw [hsf]
    rw [h1, h2, Nat.add_zero]
  · rw [hfind]
    rfl

/-- Closed instance of C10: amending id 1 at its price 50.25 to quantity 0
keeps it queued with aggregate 0 and the 50.25 level indexed. -/
theorem C10_witness :
    (amend_order 1 p5025 0 demo_book).1 = true ∧
    findOrder (amend_order 1 p5025 0 demo_book).2 1
      = some (Order.mk 1 true p5025 0 10) ∧
    1 ∈ queueAt (amend_order 1 p5025 0 demo_book).2 true p5025 ∧
    volumeAt (amend_order 1 p5025 0 demo_book).2 true p5025
      = volumeAt demo_book true p5025 - 100 ∧
    (side_find (fetch_side (amend_order 1 p5025 0 demo_book).2 true)
        p5025).isSome = true :=
  @C10_amend_to_zero demo_book demo_book_reachable 1
    (Order.mk 1 true p5025 100 10) (by decide)

end OrderBookSpec
